import Mathlib

/-! Shallow embedding of the topological memory planner found in
tensorflow/lite/micro/memory_planner/topological_memory_planner.h and .cc,
together with proofs about its placement algorithm.

Modelling conventions: C int is modelled as Int; the scratch-arena arrays
are modelled as Lean lists with explicit state passing; the planner's
offset-sorted singly linked list of ListEntry nodes (array cells chained by
next_entry_index, -1 as end sentinel) is modelled as the Lean list of its
nodes in chain order.  Out-of-range reads that the C code performs through
raw pointers are modelled with List.getD and an explicit default element. -/

namespace Tflm

/-- Convolution geometry parameters.  The planner sources access exactly the
fields below; the source spells the output channel count both
output_channel (in AddOperatorInfo) and out_channel (in
CalForwardConv2DMemPaddingLen), which refer to the same field of the
parameter struct, so one field models both spellings. -/
structure ConvOpParams where
  input_height : Int
  input_width : Int
  input_channel : Int
  filter_height : Int
  filter_width : Int
  output_height : Int
  output_width : Int
  output_channel : Int
  padding : Int
  stride_width : Int
  stride_height : Int
  dilation_width_factor : Int
  dilation_height_factor : Int
deriving DecidableEq

instance : Inhabited ConvOpParams :=
  ⟨⟨0, 0, 0, 0, 0, 0, 0, 0, 0, 0, 0, 0, 0⟩⟩

/-- Operator kinds used by the planner.  The source switches on the schema's
BuiltinOperator enumeration; only CONV_2D, ADD and MUL appear in the planner
and its tests, all remaining kinds are modelled by the OTHER tag. -/
inductive BuiltinOperator where
  | CONV_2D
  | ADD
  | MUL
  | OTHER
deriving DecidableEq

/-- Per-operator record (struct OperatorRequirements in the header):
operator kind, geometry parameters and the reversed-computation flag.  The
header documents the flag's default as false (the source never explicitly
initialises the scratch memory backing it; the documented default is
modelled). -/
structure OperatorRequirements where
  op_type : BuiltinOperator
  params : ConvOpParams
  reverse : Bool
deriving DecidableEq

instance : Inhabited OperatorRequirements :=
  ⟨⟨BuiltinOperator.OTHER, default, false⟩⟩

/-- Per-buffer record (struct BufferRequirements in the header).  The two
per-operator bool arrays have length equal to the planner's operator count. -/
structure BufferRequirements where
  size : Int
  offline_offset : Int
  first_time_used : Int
  last_time_used : Int
  input_of_operators : List Bool
  output_of_operators : List Bool
deriving DecidableEq

/-- Modelled from the spec: the sentinel kOnlinePlannedBuffer marking a
buffer whose offset the planner chooses (the spec's UNPLANNED).  The constant
is declared in the runtime's memory_planner header, which is not among these
sources; upstream defines it as -1. -/
def kOnlinePlannedBuffer : Int := -1

instance : Inhabited BufferRequirements :=
  ⟨⟨0, kOnlinePlannedBuffer, 0, 0, [], []⟩⟩

/-- Modelled from the spec: IsOverlapOrInplaceOperator is called by
CalCurrentOffset but not defined in these sources; per the spec the admitted
operator kinds are CONV2D and ADD. -/
def isOverlapOrInplaceOperator : BuiltinOperator → Bool
  | BuiltinOperator.CONV_2D => true
  | BuiltinOperator.ADD => true
  | _ => false

/-! The 2-level sort (SortInPlace2Level in the source).  The three parallel
arrays val1s, val2s, ids are modelled as one list of SortKey triples. -/

/-- One element of the parallel arrays handed to SortInPlace2Level. -/
structure SortKey where
  val1 : Int
  val2 : Int
  id : Nat
deriving DecidableEq

/-- needSwap2Level(val1s, val2s, idx1, idx2) from the source, as a function
of the elements at idx1 (cur) and idx2 (prev).  Note the source reads only
val1 in both branches of the conditional, so when the first keys are equal
the result is val1 less-than itself, i.e. false. -/
def needSwap2Level (cur prev : SortKey) : Bool :=
  if cur.val1 ≠ prev.val1 then cur.val1 > prev.val1 else cur.val1 < prev.val1

/-- Inner loop of SortInPlace2Level: one left-to-right bubble pass carrying
the current left element a, returning the rewritten list and whether any
adjacent swap happened (any_swapped).  The source text omits the opening
brace of the swap block, which does not parse; the swap block is modelled
as guarded by the condition, as the closing brace and the comments
indicate. -/
def bubblePassAux (a : SortKey) : List SortKey → List SortKey × Bool
  | [] => ([a], false)
  | b :: t =>
    if needSwap2Level b a then
      (b :: (bubblePassAux a t).1, true)
    else
      (a :: (bubblePassAux b t).1, (bubblePassAux b t).2)

/-- One full pass of the do-while body of SortInPlace2Level. -/
def bubblePass : List SortKey → List SortKey × Bool
  | [] => ([], false)
  | a :: t => bubblePassAux a t

/-- Number of out-of-order pairs with respect to needSwap2Level; the
termination measure for the do-while loop of SortInPlace2Level. -/
def inversions : List SortKey → Nat
  | [] => 0
  | a :: t => t.countP (fun b => needSwap2Level b a) + inversions t

/-- Repeat bubble passes while a pass swapped, consuming one unit of fuel
per swapping pass. -/
def sortGo : Nat → List SortKey → List SortKey
  | 0, l => l
  | fuel + 1, l =>
    let p := bubblePass l
    if p.2 then sortGo fuel p.1 else p.1

/-- SortInPlace2Level from the source: bubble passes until a pass performs
no swap.  Each swapping pass strictly decreases inversions (proved below),
so inversions l + 1 units of fuel always reach the no-swap fixpoint
(sortInPlace2Level_fixpoint below); with that fuel the definition agrees
with the source's unbounded do-while loop. -/
def sortInPlace2Level (l : List SortKey) : List SortKey :=
  sortGo (inversions l + 1) l


/-! Overlap policy: the forward-padding computation and the per-pair
admission performed by CalCurrentOffset / CalculatePaddingLen. -/

/-- CalForwardConv2DMemPaddingLen from the source: a row-major scan over the
input coordinates maintaining a running cursor curend; for each input
coordinate the last output position depending on it is computed, the cursor
is pushed past it, then advanced by one input pixel.  The source computes
the inner quotient as the integer cast of std::floor of a float division of
two ints; it is modelled as exact floor division (Int.fdiv), which agrees
with the float computation for the integer magnitudes a conv layer can have
(both operands well below the float mantissa range). -/
def calForwardConv2DMemPaddingLen (p : ConvOpParams) : Int :=
  let step := fun (curend : Int) (in_hi : Int) (in_wi : Int) =>
    let child_hi := max 0 (min (p.output_height - 1)
      ((in_hi + p.padding).fdiv p.filter_height))
    let child_wi := max 0 (min (p.output_width - 1)
      ((in_wi + p.padding).fdiv p.filter_width))
    let outmem_pos_lastchild :=
      (child_hi * p.output_width + child_wi + 1) * p.output_channel
    max curend outmem_pos_lastchild + p.input_channel
  let curend :=
    (List.range p.input_height.toNat).foldl (fun acc (hi : Nat) =>
      (List.range p.input_width.toNat).foldl (fun acc2 (wi : Nat) =>
        step acc2 (hi : Int) (wi : Int)) acc) 0
  curend - p.input_height * p.input_width * p.input_channel

/-- CalculatePaddingLen from the source.  For CONV_2D with the in-tensor
dying exactly when the out-tensor is born it returns the forward padding
length plus the size difference of the two buffers; for ADD it returns 0.
On the remaining paths the source function falls off its end without a
return statement (undefined behaviour); those paths are unreachable from
the only call site (CalCurrentOffset guards the call with
IsOverlapOrInplaceOperator and the same liveness equation) and are
modelled as 0. -/
def calculatePaddingLen (op : OperatorRequirements)
    (priorReq curReq : BufferRequirements) : Int :=
  match op.op_type with
  | BuiltinOperator.CONV_2D =>
    if priorReq.last_time_used = curReq.first_time_used then
      calForwardConv2DMemPaddingLen op.params + priorReq.size - curReq.size
    else 0
  | BuiltinOperator.ADD => 0
  | _ => 0

/-- The admission scan inside CalCurrentOffset: the first operator index i
(ascending, over the declared operator count) such that the current buffer
is an output of i, i's kind admits overlap, the prior buffer is an input of
i, and the prior buffer's last use step equals the current buffer's first
use step. -/
def admitIndex (ops : List OperatorRequirements)
    (priorReq curReq : BufferRequirements) : Option Nat :=
  (List.range ops.length).find? (fun i =>
    curReq.output_of_operators.getD i false &&
    isOverlapOrInplaceOperator (ops.getD i default).op_type &&
    priorReq.input_of_operators.getD i false &&
    decide (priorReq.last_time_used = curReq.first_time_used))

/-- CalCurrentOffset from the source: given the already-placed prior entry's
offset and requirements and the candidate's requirements, return the offset
the prior contributes, together with the operator table (whose reverse flag
at the admitting index is set when the computed padding is positive).  When
no operator admits the pair the default non-overlap baseline
prior offset + prior size is returned and the table is unchanged. -/
def calCurrentOffset (ops : List OperatorRequirements) (priorOffset : Int)
    (priorReq curReq : BufferRequirements) :
    Int × List OperatorRequirements :=
  match admitIndex ops priorReq curReq with
  | some i =>
    let padding := calculatePaddingLen (ops.getD i default) priorReq curReq
    let ops2 :=
      if padding > 0 then
        ops.set i { ops.getD i default with reverse := true }
      else ops
    (priorOffset + padding, ops2)
  | none => (priorOffset + priorReq.size, ops)

/-! The placement engine (CalculateOffsetsIfNeeded in the source). -/

/-- A node of the offset-ordered list (struct ListEntry); the chaining field
next_entry_index is represented by the position in the Lean list. -/
structure ListEntry where
  offset : Int
  requirements_index : Nat
deriving DecidableEq

instance : Inhabited ListEntry := ⟨⟨0, 0⟩⟩

/-- DoesEntryOverlapInTime from the source: whether the buffer recorded in
the entry is live somewhere within the queried closed step interval. -/
def doesEntryOverlapInTime (reqs : List BufferRequirements) (e : ListEntry)
    (first_time_used last_time_used : Int) : Bool :=
  let er := reqs.getD e.requirements_index default
  !(decide (er.first_time_used > last_time_used)) &&
  !(decide (first_time_used > er.last_time_used))

/-- The gap-search loop of CalculateOffsetsIfNeeded for one online buffer,
walking the offset-ordered entry list.  The source iterates with a prior
pointer and NextSimultaneouslyActiveBuffer: non-overlapping entries are
skipped; for an overlapping entry the gap below it is checked first (using
the candidate offset bumped by all earlier overlapping entries), the loop
stops when the gap fits, otherwise the entry becomes the prior and
CalCurrentOffset raises the candidate to at least the offset it
contributes.  This function performs the identical walk entry by entry.
The first placed buffer sees the empty list and keeps candidate 0. -/
def placeScan (ops : List OperatorRequirements)
    (reqs : List BufferRequirements) (wanted : BufferRequirements)
    (candidate : Int) : List ListEntry → Int × List OperatorRequirements
  | [] => (candidate, ops)
  | e :: rest =>
    if doesEntryOverlapInTime reqs e wanted.first_time_used
        wanted.last_time_used then
      if e.offset - candidate ≥ wanted.size then (candidate, ops)
      else
        let priorReq := reqs.getD e.requirements_index default
        let r := calCurrentOffset ops e.offset priorReq wanted
        placeScan r.2 reqs wanted (max candidate r.1) rest
    else placeScan ops reqs wanted candidate rest

/-- Insertion into the offset-ordered list, exactly as the tail of the
placement loop does it: the new entry becomes the head only when the head's
offset is strictly greater, otherwise it is inserted before the first entry
with a strictly greater offset (hence after all entries with an equal
offset). -/
def insertEntry (e : ListEntry) : List ListEntry → List ListEntry
  | [] => [e]
  | x :: xs => if x.offset > e.offset then e :: x :: xs else x :: insertEntry e xs

/-- State threaded through the placement loop: the per-buffer offset array
buffer_offsets_, the offset-ordered list and the operator table (mutable
through its reverse flags). -/
structure PlaceState where
  offsets : List Int
  entries : List ListEntry
  ops : List OperatorRequirements
deriving DecidableEq

/-- Placement of a single buffer (one iteration of the main loop of
CalculateOffsetsIfNeeded): an online buffer gets the offset found by the
gap search, an offline-pinned buffer gets its offline offset unchecked;
either way the offset is recorded and the buffer is inserted into the
offset-ordered list. -/
def placeBuffer (reqs : List BufferRequirements) (st : PlaceState)
    (buffer_id : Nat) : PlaceState :=
  let wanted := reqs.getD buffer_id default
  if wanted.offline_offset = kOnlinePlannedBuffer then
    let r := placeScan st.ops reqs wanted 0 st.entries
    { offsets := st.offsets.set buffer_id r.1
      entries := insertEntry ⟨r.1, buffer_id⟩ st.entries
      ops := r.2 }
  else
    { offsets := st.offsets.set buffer_id wanted.offline_offset
      entries := insertEntry ⟨wanted.offline_offset, buffer_id⟩ st.entries
      ops := st.ops }

/-- Whether a buffer record is online-planned (offline_offset equal to the
sentinel). -/
def isOnline (r : BufferRequirements) : Bool :=
  decide (r.offline_offset = kOnlinePlannedBuffer)

/-- The ids of offline-pinned buffers in insertion order: the partition
loop of CalculateOffsetsIfNeeded fills them into the head of the sort
arrays, ascending over i. -/
def pinnedIds (reqs : List BufferRequirements) : List Nat :=
  (List.range reqs.length).filter (fun i => !(isOnline (reqs.getD i default)))

/-- The contents of the online region of the sort arrays before sorting.
The partition loop fills online buffers from the tail of the arrays while i
ascends, so in array order the region holds the online ids in reverse
insertion order; val1 is the first-use step and val2 the last-use step. -/
def onlineSortInput (reqs : List BufferRequirements) : List SortKey :=
  (((List.range reqs.length).filter
      (fun i => isOnline (reqs.getD i default))).reverse).map
    (fun i => ⟨(reqs.getD i default).first_time_used,
               (reqs.getD i default).last_time_used, i⟩)

/-- The order in which the placement loop visits buffers: the pinned ids in
insertion order (head region, not sorted), then the online region after
SortInPlace2Level. -/
def placementOrder (reqs : List BufferRequirements) : List Nat :=
  pinnedIds reqs ++ (sortInPlace2Level (onlineSortInput reqs)).map SortKey.id

/-- The initial buffer_offsets_ array as written by the partition loop: -1
for online buffers, the offline offset for pinned ones. -/
def initialOffsets (reqs : List BufferRequirements) : List Int :=
  reqs.map (fun r =>
    if r.offline_offset = kOnlinePlannedBuffer then -1 else r.offline_offset)

/-- The whole placement computation performed by CalculateOffsetsIfNeeded
once it decides work is needed: partition and sort, then place every buffer
in order, starting from an empty offset-ordered list. -/
def calculateOffsets (ops : List OperatorRequirements)
    (reqs : List BufferRequirements) : PlaceState :=
  (placementOrder reqs).foldl (placeBuffer reqs)
    ⟨initialOffsets reqs, [], ops⟩

/-! The planner object and its API. -/

/-- Status codes returned over the C API (kTfLiteOk / kTfLiteError; the spec
calls the failure kinds INDEX_OUT_OF_RANGE and CAPACITY_EXCEEDED, both of
which the source reports as kTfLiteError plus a logged message). -/
inductive TfLiteStatus where
  | ok
  | error
deriving DecidableEq

/-- The planner state (class TopologicalMemoryPlanner).  The constructor
derives max_buffer_count_ from the scratch region size; the source formula
reads the operator_size_ member before it is assigned, so the resulting
capacity is taken here as a construction parameter.  buffer_count_ always
equals the length of the requirements list. -/
structure TopologicalMemoryPlanner where
  max_buffer_count : Nat
  operator_size : Nat
  ops_requirements : List OperatorRequirements
  requirements : List BufferRequirements
  buffer_offsets : List Int
  entries : List ListEntry
  need_to_calculate_offsets : Bool
deriving DecidableEq

/-- Construction: empty tables, the stale flag starts true, and the
operator table holds operator_size default records (reverse flag false, as
the header documents). -/
def mkPlanner (max_buffer_count operator_size : Nat) :
    TopologicalMemoryPlanner :=
  { max_buffer_count := max_buffer_count
    operator_size := operator_size
    ops_requirements := List.replicate operator_size default
    requirements := []
    buffer_offsets := []
    entries := []
    need_to_calculate_offsets := true }

/-- AddOperatorInfo: fails when the operator id is not below the declared
operator count; otherwise records the kind, and for CONV_2D copies the
geometry parameters (other kinds leave the parameter slot untouched, as the
source's switch does).  Note the source does not touch
need_to_calculate_offsets_ here. -/
def addOperatorInfo (p : TopologicalMemoryPlanner) (operator_id : Nat)
    (op_type : BuiltinOperator) (op_params : ConvOpParams) :
    TfLiteStatus × TopologicalMemoryPlanner :=
  if operator_id ≥ p.operator_size then (TfLiteStatus.error, p)
  else
    let old := p.ops_requirements.getD operator_id default
    let updated : OperatorRequirements :=
      { old with
        op_type := op_type
        params := if op_type = BuiltinOperator.CONV_2D then op_params
                  else old.params }
    (TfLiteStatus.ok,
     { p with ops_requirements := p.ops_requirements.set operator_id updated })

/-- AddBuffer (online form): fails when the table is full, otherwise
appends a record with the sentinel offline offset, copying operator_size
entries of each role array, and marks the plan stale.  The header declares
this overload without the operator_size argument the .cc definition lists;
the planner's declared operator count is used. -/
def addBuffer (p : TopologicalMemoryPlanner) (size first_time_used
    last_time_used : Int) (input_of output_of : List Bool) :
    TfLiteStatus × TopologicalMemoryPlanner :=
  if p.requirements.length ≥ p.max_buffer_count then (TfLiteStatus.error, p)
  else
    let rec0 : BufferRequirements :=
      { size := size
        offline_offset := kOnlinePlannedBuffer
        first_time_used := first_time_used
        last_time_used := last_time_used
        input_of_operators :=
          (List.range p.operator_size).map (fun i => input_of.getD i false)
        output_of_operators :=
          (List.range p.operator_size).map (fun i => output_of.getD i false) }
    (TfLiteStatus.ok,
     { p with requirements := p.requirements ++ [rec0]
              need_to_calculate_offsets := true })

/-- AddBuffer (offline-pinned form): delegates to the online form, then
overwrites the offline offset of the slot captured before the call (the
record just appended).  The source's delegating call lists last_time_used
in the operator_size position, which does not type-check; the call is
modelled against the declared parameter order.  On failure the state is
returned unchanged. -/
def addBufferPinned (p : TopologicalMemoryPlanner) (size first_time_used
    last_time_used : Int) (input_of output_of : List Bool)
    (offline_offset : Int) : TfLiteStatus × TopologicalMemoryPlanner :=
  let slot := p.requirements.length
  match addBuffer p size first_time_used last_time_used input_of output_of with
  | (TfLiteStatus.error, p2) => (TfLiteStatus.error, p2)
  | (TfLiteStatus.ok, p2) =>
    let r := p2.requirements.getD slot default
    (TfLiteStatus.ok,
     { p2 with requirements :=
        p2.requirements.set slot { r with offline_offset := offline_offset } })

/-- CalculateOffsetsIfNeeded: returns immediately when the plan is not
stale or no buffer was added; otherwise recomputes the plan and clears the
stale flag. -/
def calculateOffsetsIfNeeded (p : TopologicalMemoryPlanner) :
    TopologicalMemoryPlanner :=
  if ¬p.need_to_calculate_offsets ∨ p.requirements.length = 0 then p
  else
    let st := calculateOffsets p.ops_requirements p.requirements
    { p with buffer_offsets := st.offsets
             entries := st.entries
             ops_requirements := st.ops
             need_to_calculate_offsets := false }

/-- GetBufferCount. -/
def getBufferCount (p : TopologicalMemoryPlanner) : Nat :=
  p.requirements.length

/-- GetMaximumMemorySize: recomputes if needed, then walks the
offset-ordered list taking the maximum of offset plus size, 0 when no
buffer was added. -/
def getMaximumMemorySize (p : TopologicalMemoryPlanner) :
    Int × TopologicalMemoryPlanner :=
  let p2 := calculateOffsetsIfNeeded p
  if p2.requirements.length = 0 then (0, p2)
  else
    (p2.entries.foldl (fun m e =>
      max m (e.offset + (p2.requirements.getD e.requirements_index default).size))
      0, p2)

/-- GetOffsetForBuffer: recomputes if needed, then either fails on an
out-of-range index (the out parameter stays untouched, modelled as none) or
returns the planned offset. -/
def getOffsetForBuffer (p : TopologicalMemoryPlanner) (buffer_index : Int) :
    TfLiteStatus × Option Int × TopologicalMemoryPlanner :=
  let p2 := calculateOffsetsIfNeeded p
  if buffer_index < 0 ∨ buffer_index ≥ (p2.requirements.length : Int) then
    (TfLiteStatus.error, none, p2)
  else
    (TfLiteStatus.ok, some (p2.buffer_offsets.getD buffer_index.toNat 0), p2)

/-- DoAnyBuffersOverlap: recomputes if needed, then the O(N^2) scan over
ordered pairs of distinct buffers reporting any pair that overlaps both in
time and in memory. -/
def doAnyBuffersOverlap (p : TopologicalMemoryPlanner) :
    Bool × TopologicalMemoryPlanner :=
  let p2 := calculateOffsetsIfNeeded p
  let n := p2.requirements.length
  ((List.range n).any (fun i =>
    (List.range n).any (fun j =>
      let a := p2.requirements.getD i default
      let b := p2.requirements.getD j default
      let a_start := p2.buffer_offsets.getD i 0
      let b_start := p2.buffer_offsets.getD j 0
      !(decide (i = j)) &&
      !(decide (a.first_time_used > b.last_time_used)) &&
      !(decide (b.first_time_used > a.last_time_used)) &&
      !(decide (a_start ≥ b_start + b.size)) &&
      !(decide (b_start ≥ a_start + a.size)))), p2)

/-! Concrete example inputs used by counterexamples and witnesses. -/

/-- Two buffers pinned at the same offline offset 0, both live at step 0. -/
def exPinnedReqs : List BufferRequirements :=
  [⟨1, 0, 0, 0, [], []⟩, ⟨1, 0, 0, 0, [], []⟩]

/-- A degenerate convolution: 1x1x1 input, 1x1 filter, no padding, 1x1x5
output; its forward-padding length under the source formula is 5. -/
def exConvSmall : ConvOpParams := ⟨1, 1, 1, 1, 1, 1, 1, 5, 0, 1, 1, 1, 1⟩

/-- One CONV_2D operator with the degenerate geometry above. -/
def exOpsConv : List OperatorRequirements :=
  [⟨BuiltinOperator.CONV_2D, exConvSmall, false⟩]

/-- An input buffer of operator 0: size 1, live exactly at step 1. -/
def exPriorReq : BufferRequirements :=
  ⟨1, kOnlinePlannedBuffer, 1, 1, [true], [false]⟩

/-- An output buffer of operator 0 with size 0, born at step 1. -/
def exCurReqZero : BufferRequirements :=
  ⟨0, kOnlinePlannedBuffer, 1, 2, [false], [true]⟩

/-- Registration order for the reverse-flag example: first the output of
operator 0 (size 7, live steps 1 to 2), then its input (size 1, live
exactly at step 1); the tie on first-use steps makes the placement loop
visit the input first. -/
def exC6Reqs : List BufferRequirements :=
  [⟨7, kOnlinePlannedBuffer, 1, 2, [false], [true]⟩,
   ⟨1, kOnlinePlannedBuffer, 1, 1, [true], [false]⟩]

/-- A planner with one buffer added and a computed (clean) plan. -/
def exPlannerClean : TopologicalMemoryPlanner :=
  calculateOffsetsIfNeeded (addBuffer (mkPlanner 2 1) 4 0 1 [true] [false]).2

/-- A planner holding the two buffers of the basic planner test: sizes 10
and 20 with disjoint live intervals. -/
def exPlannerBasic : TopologicalMemoryPlanner :=
  (addBuffer (addBuffer (mkPlanner 4 1) 10 0 1 [true] [false]).2
    20 2 3 [false] [true]).2

/-! Specification-side predicates used to state the claims. -/

/-- Two buffer records are live simultaneously: their closed step intervals
intersect. -/
def timeIntersect (a b : BufferRequirements) : Prop :=
  a.first_time_used ≤ b.last_time_used ∧ b.first_time_used ≤ a.last_time_used

/-- The byte ranges of two placed buffers are disjoint. -/
def byteDisjoint (a_start : Int) (a : BufferRequirements) (b_start : Int)
    (b : BufferRequirements) : Prop :=
  a_start ≥ b_start + b.size ∨ b_start ≥ a_start + a.size

instance (a b : BufferRequirements) : Decidable (timeIntersect a b) :=
  inferInstanceAs (Decidable (_ ∧ _))

instance (a_start : Int) (a : BufferRequirements) (b_start : Int)
    (b : BufferRequirements) : Decidable (byteDisjoint a_start a b_start b) :=
  inferInstanceAs (Decidable (_ ∨ _))

/-- The overlap policy admits the ordered pair (pin as input, pout as
output): some operator k has pin among its inputs and pout among its
outputs, pin dies exactly when pout is born, and k's kind is in the
admitted set. -/
def admittedPair (ops : List OperatorRequirements)
    (pin pout : BufferRequirements) : Prop :=
  ∃ k, k < ops.length ∧
    pin.input_of_operators.getD k false = true ∧
    pout.output_of_operators.getD k false = true ∧
    pin.last_time_used = pout.first_time_used ∧
    isOverlapOrInplaceOperator (ops.getD k default).op_type = true

/-- The part of an operator record the admission and padding computations
read: kind and geometry, but not the reverse flag. -/
def opShape (o : OperatorRequirements) : BuiltinOperator × ConvOpParams :=
  (o.op_type, o.params)

/-- Two operator tables agree on everything except possibly the reverse
flags. -/
def SameShape (ops1 ops2 : List OperatorRequirements) : Prop :=
  ops1.map opShape = ops2.map opShape

/-- The offset-ordered list invariant: offsets ascend along the chain. -/
def EntriesSorted (l : List ListEntry) : Prop :=
  l.Pairwise (fun a b => a.offset ≤ b.offset)

/-- The invariant maintained by the placement loop after processing the
buffer ids in processed, relative to the operator table ops0 the loop was
started with and the registered buffer records reqs. -/
structure PlaceInv (ops0 : List OperatorRequirements)
    (reqs : List BufferRequirements) (processed : List Nat)
    (st : PlaceState) : Prop where
  sorted : EntriesSorted st.entries
  idsPerm : List.Perm (st.entries.map ListEntry.requirements_index) processed
  idsBound : ∀ e ∈ st.entries, e.requirements_index < reqs.length
  offAgree : ∀ e ∈ st.entries,
    st.offsets.getD e.requirements_index 0 = e.offset
  offLen : st.offsets.length = reqs.length
  shape : SameShape st.ops ops0
  pairOk : ∀ e1 ∈ st.entries, ∀ e2 ∈ st.entries,
    e1.requirements_index ≠ e2.requirements_index →
    ¬((reqs.getD e1.requirements_index default).offline_offset
          ≠ kOnlinePlannedBuffer ∧
      (reqs.getD e2.requirements_index default).offline_offset
          ≠ kOnlinePlannedBuffer) →
    timeIntersect (reqs.getD e1.requirements_index default)
      (reqs.getD e2.requirements_index default) →
    byteDisjoint e1.offset (reqs.getD e1.requirements_index default)
      e2.offset (reqs.getD e2.requirements_index default)
    ∨ admittedPair ops0 (reqs.getD e1.requirements_index default)
        (reqs.getD e2.requirements_index default)
    ∨ admittedPair ops0 (reqs.getD e2.requirements_index default)
        (reqs.getD e1.requirements_index default)
  pinnedOff : ∀ i ∈ processed,
    (reqs.getD i default).offline_offset ≠ kOnlinePlannedBuffer →
    st.offsets.getD i 0 = (reqs.getD i default).offline_offset

theorem bubblePassAux_perm (a : SortKey) (t : List SortKey) :
    List.Perm (bubblePassAux a t).1 (a :: t) := by
  induction t generalizing a with
  | nil => simp [bubblePassAux]
  | cons b t ih =>
    cases hs : needSwap2Level b a with
    | true =>
      simp only [bubblePassAux, hs, if_true]
      exact ((ih a).cons b).trans (List.Perm.swap a b t)
    | false =>
      simp only [bubblePassAux, hs, Bool.false_eq_true, if_false]
      exact (ih b).cons a

theorem bubblePass_perm (l : List SortKey) : List.Perm (bubblePass l).1 l := by
  cases l with
  | nil => simp [bubblePass]
  | cons a t => exact bubblePassAux_perm a t

theorem bubblePassAux_not_swapped (a : SortKey) (t : List SortKey)
    (h : (bubblePassAux a t).2 = false) : (bubblePassAux a t).1 = a :: t := by
  induction t generalizing a with
  | nil => simp [bubblePassAux]
  | cons b t ih =>
    cases hs : needSwap2Level b a with
    | true => simp [bubblePassAux, hs] at h
    | false =>
      simp only [bubblePassAux, hs, Bool.false_eq_true, if_false] at h ⊢
      rw [ih b h]

theorem bubblePass_not_swapped (l : List SortKey)
    (h : (bubblePass l).2 = false) : (bubblePass l).1 = l := by
  cases l with
  | nil => simp [bubblePass]
  | cons a t => exact bubblePassAux_not_swapped a t h

/-- needSwap2Level is asymmetric: an adjacent pair cannot be out of order in
both directions. -/
theorem needSwap2Level_asymm (x y : SortKey) (h : needSwap2Level x y = true) :
    needSwap2Level y x = false := by
  by_cases hne : x.val1 = y.val1
  · simp [needSwap2Level, hne] at h
  · have hne2 : y.val1 ≠ x.val1 := fun e => hne e.symm
    simp [needSwap2Level, hne, hne2] at h ⊢
    omega

theorem bubblePassAux_inversions (a : SortKey) (t : List SortKey) :
    inversions (bubblePassAux a t).1 +
      (if (bubblePassAux a t).2 then 1 else 0) ≤ inversions (a :: t) := by
  induction t generalizing a with
  | nil => simp [bubblePassAux, inversions]
  | cons b t ih =>
    cases hs : needSwap2Level b a with
    | true =>
      have hcnt : List.countP (fun c => needSwap2Level c b) (bubblePassAux a t).1
          = List.countP (fun c => needSwap2Level c b) (a :: t) :=
        (bubblePassAux_perm a t).countP_eq _
      have hab : needSwap2Level a b = false := needSwap2Level_asymm b a hs
      have hih : inversions (bubblePassAux a t).1 ≤ inversions (a :: t) :=
        le_trans (Nat.le_add_right _ _) (ih a)
      simp only [bubblePassAux, hs, if_true, inversions, List.countP_cons,
        hab, if_false, Bool.false_eq_true] at *
      omega
    | false =>
      have hcnt : List.countP (fun c => needSwap2Level c a) (bubblePassAux b t).1
          = List.countP (fun c => needSwap2Level c a) (b :: t) :=
        (bubblePassAux_perm b t).countP_eq _
      have hih := ih b
      simp only [bubblePassAux, hs, Bool.false_eq_true, if_false, inversions,
        List.countP_cons] at *
      omega

/-- A pass that swapped strictly decreases the inversion count: the
termination argument for the source's do-while loop. -/
theorem bubblePass_inversions_lt (l : List SortKey)
    (h : (bubblePass l).2 = true) :
    inversions (bubblePass l).1 < inversions l := by
  cases l with
  | nil => simp [bubblePass] at h
  | cons a t =>
    have hle := bubblePassAux_inversions a t
    have h2 : (bubblePassAux a t).2 = true := h
    rw [h2, if_pos rfl] at hle
    simp only [bubblePass]
    omega

theorem sortGo_step (n : Nat) (l l1 : List SortKey) (swapped : Bool)
    (h : bubblePass l = (l1, swapped)) :
    sortGo (n + 1) l = if swapped then sortGo n l1 else l1 := by
  simp [sortGo, h]

theorem sortGo_perm (fuel : Nat) (l : List SortKey) :
    List.Perm (sortGo fuel l) l := by
  induction fuel generalizing l with
  | zero => exact List.Perm.refl l
  | succ n ih =>
    cases h : bubblePass l with
    | mk l1 swapped =>
      have h1 : List.Perm l1 l := by
        have := bubblePass_perm l
        rw [h] at this
        exact this
      cases swapped with
      | true =>
        rw [sortGo_step n l l1 true h, if_pos rfl]
        exact (ih l1).trans h1
      | false =>
        rw [sortGo_step n l l1 false h, if_neg (by simp)]
        exact h1

theorem sortInPlace2Level_perm (l : List SortKey) :
    List.Perm (sortInPlace2Level l) l :=
  sortGo_perm _ l

/-- With more fuel than the inversion count, the pass loop reaches its
fixpoint: one more pass over the result performs no swap.  This certifies
that the fuel used by sortInPlace2Level makes it agree with the source's
unbounded do-while loop. -/
theorem sortGo_reaches_fixpoint (fuel : Nat) :
    ∀ l : List SortKey, inversions l < fuel →
      (bubblePass (sortGo fuel l)).2 = false := by
  induction fuel with
  | zero => intro l h; omega
  | succ n ih =>
    intro l h
    cases hp : bubblePass l with
    | mk l1 swapped =>
      cases swapped with
      | true =>
        have hlt : inversions l1 < inversions l := by
          have := bubblePass_inversions_lt l (by rw [hp])
          rw [hp] at this
          exact this
        rw [sortGo_step n l l1 true hp, if_pos rfl]
        exact ih l1 (by omega)
      | false =>
        rw [sortGo_step n l l1 false hp, if_neg (by simp)]
        have h1 : l1 = l := by
          have := bubblePass_not_swapped l (by rw [hp])
          rw [hp] at this
          exact this
        rw [h1, hp]

theorem sortInPlace2Level_fixpoint (l : List SortKey) :
    (bubblePass (sortInPlace2Level l)).2 = false :=
  sortGo_reaches_fixpoint (inversions l + 1) l (by omega)
/-! Generic list helper lemmas. -/

theorem getD_set_self {α : Type _} (l : List α) (i : Nat) (a d : α)
    (h : i < l.length) : (l.set i a).getD i d = a := by
  induction l generalizing i with
  | nil => simp at h
  | cons x xs ih =>
    cases i with
    | zero => simp
    | succ n => simpa using ih n (by simpa using h)

theorem getD_set_ne {α : Type _} (l : List α) (i j : Nat) (a d : α)
    (h : i ≠ j) : (l.set i a).getD j d = l.getD j d := by
  induction l generalizing i j with
  | nil => simp
  | cons x xs ih =>
    cases i with
    | zero =>
      cases j with
      | zero => exact absurd rfl h
      | succ m => simp
    | succ n =>
      cases j with
      | zero => simp
      | succ m => simpa using ih n m (by omega)

theorem getD_map {α β : Type _} (f : α → β) (l : List α) (k : Nat) (d : α) :
    (l.map f).getD k (f d) = f (l.getD k d) := by
  induction l generalizing k with
  | nil => simp
  | cons a t ih =>
    cases k with
    | zero => simp
    | succ n => simp [ih n]

theorem set_getD_self {α : Type _} (l : List α) (i : Nat) (d : α) :
    l.set i (l.getD i d) = l := by
  induction l generalizing i with
  | nil => simp
  | cons x xs ih =>
    cases i with
    | zero => simp
    | succ n => simpa using ih n

theorem find?_congr {α : Type _} (p q : α → Bool) (l : List α)
    (h : ∀ a ∈ l, p a = q a) : l.find? p = l.find? q := by
  induction l with
  | nil => rfl
  | cons a t ih =>
    have ha := h a (List.mem_cons_self a t)
    rw [List.find?_cons, List.find?_cons, ha,
      ih (fun x hx => h x (List.mem_cons_of_mem a hx))]

/-! Structural lemmas about the embedded operations. -/

theorem insertEntry_perm (e : ListEntry) (l : List ListEntry) :
    List.Perm (insertEntry e l) (e :: l) := by
  induction l with
  | nil => exact List.Perm.refl _
  | cons x xs ih =>
    by_cases h : x.offset > e.offset
    · simp only [insertEntry, h, if_true]
      exact List.Perm.refl _
    · simp only [insertEntry, h, if_false]
      exact (ih.cons x).trans (List.Perm.swap e x xs)

theorem mem_insertEntry (e x : ListEntry) (l : List ListEntry) :
    x ∈ insertEntry e l ↔ x = e ∨ x ∈ l := by
  rw [(insertEntry_perm e l).mem_iff]
  simp

theorem insertEntry_sorted (e : ListEntry) (l : List ListEntry)
    (h : EntriesSorted l) : EntriesSorted (insertEntry e l) := by
  induction l with
  | nil => simp [insertEntry, EntriesSorted]
  | cons x xs ih =>
    rw [EntriesSorted, List.pairwise_cons] at h
    by_cases hx : x.offset > e.offset
    · simp only [insertEntry, hx, if_true, EntriesSorted, List.pairwise_cons]
      refine ⟨?_, ?_, h.2⟩
      · intro b hb
        rcases List.mem_cons.mp hb with hb | hb
        · subst hb
          omega
        · have := h.1 b hb
          omega
      · exact h.1
    · simp only [insertEntry, hx, if_false, EntriesSorted, List.pairwise_cons]
      constructor
      · intro b hb
        rcases (mem_insertEntry e b xs).mp hb with hb | hb
        · subst hb
          omega
        · exact h.1 b hb
      · exact ih h.2

theorem sameShape_length {o1 o2 : List OperatorRequirements}
    (h : SameShape o1 o2) : o1.length = o2.length := by
  have := congrArg List.length h
  simpa using this

theorem sameShape_getD {o1 o2 : List OperatorRequirements}
    (h : SameShape o1 o2) (k : Nat) :
    opShape (o1.getD k default) = opShape (o2.getD k default) := by
  have h1 := getD_map opShape o1 k default
  have h2 := getD_map opShape o2 k default
  rw [← h1, ← h2]
  rw [SameShape] at h
  rw [h]

theorem sameShape_op_type {o1 o2 : List OperatorRequirements}
    (h : SameShape o1 o2) (k : Nat) :
    (o1.getD k default).op_type = (o2.getD k default).op_type :=
  congrArg Prod.fst (sameShape_getD h k)

theorem sameShape_params {o1 o2 : List OperatorRequirements}
    (h : SameShape o1 o2) (k : Nat) :
    (o1.getD k default).params = (o2.getD k default).params :=
  congrArg Prod.snd (sameShape_getD h k)

theorem admitIndex_congr {o1 o2 : List OperatorRequirements}
    (h : SameShape o1 o2) (pr cr : BufferRequirements) :
    admitIndex o1 pr cr = admitIndex o2 pr cr := by
  unfold admitIndex
  rw [sameShape_length h]
  apply find?_congr
  intro i _
  rw [sameShape_op_type h i]

theorem calculatePaddingLen_congr {a b : OperatorRequirements}
    (h : opShape a = opShape b) (pr cr : BufferRequirements) :
    calculatePaddingLen a pr cr = calculatePaddingLen b pr cr := by
  have ht : a.op_type = b.op_type := congrArg Prod.fst h
  have hp : a.params = b.params := congrArg Prod.snd h
  simp only [calculatePaddingLen, ht, hp]

theorem calCurrentOffset_fst_congr {o1 o2 : List OperatorRequirements}
    (h : SameShape o1 o2) (off : Int) (pr cr : BufferRequirements) :
    (calCurrentOffset o1 off pr cr).1 = (calCurrentOffset o2 off pr cr).1 := by
  unfold calCurrentOffset
  rw [admitIndex_congr h]
  cases hadm : admitIndex o2 pr cr with
  | none => rfl
  | some i =>
    simp only
    rw [calculatePaddingLen_congr (sameShape_getD h i)]

theorem calCurrentOffset_sameShape (ops : List OperatorRequirements)
    (off : Int) (pr cr : BufferRequirements) :
    SameShape (calCurrentOffset ops off pr cr).2 ops := by
  unfold calCurrentOffset
  cases hadm : admitIndex ops pr cr with
  | none => rfl
  | some i =>
    simp only
    by_cases hp : calculatePaddingLen (ops.getD i default) pr cr > 0
    · simp only [hp, if_true]
      rw [SameShape, List.map_set]
      have : opShape { ops.getD i default with reverse := true }
          = opShape (ops.getD i default) := rfl
      rw [this]
      rw [← getD_map opShape ops i default, set_getD_self]
    · simp only [hp, if_false]
      rfl

theorem admitIndex_some_lt {ops : List OperatorRequirements}
    {pr cr : BufferRequirements} {k : Nat}
    (h : admitIndex ops pr cr = some k) : k < ops.length := by
  have := List.mem_of_find?_eq_some h
  simpa using this

theorem admitIndex_some_pred {ops : List OperatorRequirements}
    {pr cr : BufferRequirements} {k : Nat}
    (h : admitIndex ops pr cr = some k) :
    cr.output_of_operators.getD k false = true ∧
    isOverlapOrInplaceOperator (ops.getD k default).op_type = true ∧
    pr.input_of_operators.getD k false = true ∧
    pr.last_time_used = cr.first_time_used := by
  have := List.find?_some h
  simp only [Bool.and_eq_true, decide_eq_true_eq] at this
  exact ⟨this.1.1.1, this.1.1.2, this.1.2, this.2⟩

theorem admitIndex_isSome_iff (ops : List OperatorRequirements)
    (pr cr : BufferRequirements) :
    (admitIndex ops pr cr).isSome = true ↔ admittedPair ops pr cr := by
  rw [admitIndex, List.find?_isSome, admittedPair]
  constructor
  · rintro ⟨k, hk, hp⟩
    simp only [Bool.and_eq_true, decide_eq_true_eq] at hp
    exact ⟨k, by simpa using hk, hp.1.2, hp.1.1.1, hp.2, hp.1.1.2⟩
  · rintro ⟨k, hk, hin, hout, hlast, hkind⟩
    refine ⟨k, by simpa using hk, ?_⟩
    simp only [Bool.and_eq_true, decide_eq_true_eq]
    exact ⟨⟨⟨hout, hkind⟩, hin⟩, hlast⟩

theorem admittedPair_congr {o1 o2 : List OperatorRequirements}
    (h : SameShape o1 o2) (a b : BufferRequirements) :
    admittedPair o1 a b ↔ admittedPair o2 a b := by
  rw [← admitIndex_isSome_iff, ← admitIndex_isSome_iff, admitIndex_congr h]

theorem doesEntryOverlapInTime_iff (reqs : List BufferRequirements)
    (e : ListEntry) (f l : Int) :
    doesEntryOverlapInTime reqs e f l = true ↔
      ((reqs.getD e.requirements_index default).first_time_used ≤ l ∧
       f ≤ (reqs.getD e.requirements_index default).last_time_used) := by
  simp only [doesEntryOverlapInTime, Bool.and_eq_true, Bool.not_eq_true',
    decide_eq_false_iff_not, not_lt]

/-! Properties of the gap-search loop placeScan. -/

theorem placeScan_nil (ops : List OperatorRequirements)
    (reqs : List BufferRequirements) (w : BufferRequirements) (c : Int) :
    placeScan ops reqs w c [] = (c, ops) := rfl

theorem placeScan_cons_inactive {reqs : List BufferRequirements}
    {w : BufferRequirements} {e : ListEntry}
    (h : doesEntryOverlapInTime reqs e w.first_time_used w.last_time_used
      = false)
    (ops : List OperatorRequirements) (c : Int) (rest : List ListEntry) :
    placeScan ops reqs w c (e :: rest) = placeScan ops reqs w c rest := by
  simp [placeScan, h]

theorem placeScan_cons_gap {reqs : List BufferRequirements}
    {w : BufferRequirements} {e : ListEntry} {c : Int}
    (h : doesEntryOverlapInTime reqs e w.first_time_used w.last_time_used
      = true)
    (hg : e.offset - c ≥ w.size)
    (ops : List OperatorRequirements) (rest : List ListEntry) :
    placeScan ops reqs w c (e :: rest) = (c, ops) := by
  simp [placeScan, h, hg]

theorem placeScan_cons_bump {reqs : List BufferRequirements}
    {w : BufferRequirements} {e : ListEntry} {c : Int}
    (h : doesEntryOverlapInTime reqs e w.first_time_used w.last_time_used
      = true)
    (hg : ¬(e.offset - c ≥ w.size))
    (ops : List OperatorRequirements) (rest : List ListEntry) :
    placeScan ops reqs w c (e :: rest) =
      placeScan
        (calCurrentOffset ops e.offset
          (reqs.getD e.requirements_index default) w).2 reqs w
        (max c (calCurrentOffset ops e.offset
          (reqs.getD e.requirements_index default) w).1) rest := by
  simp [placeScan, h, hg]

theorem placeScan_mono (reqs : List BufferRequirements)
    (w : BufferRequirements) :
    ∀ (l : List ListEntry) (ops : List OperatorRequirements) (c : Int),
      c ≤ (placeScan ops reqs w c l).1 := by
  intro l
  induction l with
  | nil => intro ops c; simp [placeScan_nil]
  | cons e rest ih =>
    intro ops c
    cases ha : doesEntryOverlapInTime reqs e w.first_time_used
        w.last_time_used with
    | false => rw [placeScan_cons_inactive ha]; exact ih ops c
    | true =>
      by_cases hg : e.offset - c ≥ w.size
      · rw [placeScan_cons_gap ha hg]
      · rw [placeScan_cons_bump ha hg]
        exact le_trans (le_max_left _ _) (ih _ _)

theorem placeScan_sameShape (reqs : List BufferRequirements)
    (w : BufferRequirements) :
    ∀ (l : List ListEntry) (ops : List OperatorRequirements) (c : Int),
      SameShape (placeScan ops reqs w c l).2 ops := by
  intro l
  induction l with
  | nil => intro ops c; rfl
  | cons e rest ih =>
    intro ops c
    cases ha : doesEntryOverlapInTime reqs e w.first_time_used
        w.last_time_used with
    | false => rw [placeScan_cons_inactive ha]; exact ih ops c
    | true =>
      by_cases hg : e.offset - c ≥ w.size
      · rw [placeScan_cons_gap ha hg]
        rfl
      · rw [placeScan_cons_bump ha hg]
        exact (ih _ _).trans (calCurrentOffset_sameShape ops e.offset _ w)

/-- The central property of the gap search: the offset it returns is, with
respect to every time-overlapping entry of the (offset-sorted) list, either
at or above the entry's end, or at or below the entry's start by at least
the wanted size, or the pair is admitted by the overlap policy. -/
theorem placeScan_spec (reqs : List BufferRequirements)
    (w : BufferRequirements) (ops0 : List OperatorRequirements) :
    ∀ (l : List ListEntry) (ops : List OperatorRequirements) (c : Int),
      SameShape ops ops0 → EntriesSorted l →
      ∀ e ∈ l,
        doesEntryOverlapInTime reqs e w.first_time_used w.last_time_used
          = true →
        (e.offset + (reqs.getD e.requirements_index default).size
            ≤ (placeScan ops reqs w c l).1)
        ∨ ((placeScan ops reqs w c l).1 + w.size ≤ e.offset)
        ∨ admittedPair ops0 (reqs.getD e.requirements_index default) w := by
  intro l
  induction l with
  | nil => intro ops c _ _ e he; simp at he
  | cons x rest ih =>
    intro ops c hshape hsorted e he hactive
    rw [EntriesSorted, List.pairwise_cons] at hsorted
    cases hx : doesEntryOverlapInTime reqs x w.first_time_used
        w.last_time_used with
    | false =>
      rw [placeScan_cons_inactive hx]
      rcases List.mem_cons.mp he with he | he
      · subst he
        rw [hactive] at hx
        exact absurd hx (by simp)
      · exact ih ops c hshape hsorted.2 e he hactive
    | true =>
      by_cases hg : x.offset - c ≥ w.size
      · rw [placeScan_cons_gap hx hg]
        rcases List.mem_cons.mp he with he | he
        · subst he
          right; left
          omega
        · have hxe : x.offset ≤ e.offset := hsorted.1 e he
          right; left
          omega
      · rw [placeScan_cons_bump hx hg]
        rcases List.mem_cons.mp he with he | he
        · subst he
          cases hadm : admitIndex ops (reqs.getD e.requirements_index default)
              w with
          | some i =>
            right; right
            rw [← admittedPair_congr hshape]
            rw [← admitIndex_isSome_iff]
            rw [hadm]
            rfl
          | none =>
            left
            have hval : (calCurrentOffset ops e.offset
                (reqs.getD e.requirements_index default) w).1 =
                e.offset + (reqs.getD e.requirements_index default).size := by
              unfold calCurrentOffset
              rw [hadm]
            have hmax := le_max_right c (calCurrentOffset ops e.offset
              (reqs.getD e.requirements_index default) w).1
            have hmono := placeScan_mono reqs w rest
              (calCurrentOffset ops e.offset
                (reqs.getD e.requirements_index default) w).2
              (max c (calCurrentOffset ops e.offset
                (reqs.getD e.requirements_index default) w).1)
            rw [hval] at hmax
            omega
        · have hshape2 : SameShape (calCurrentOffset ops x.offset
              (reqs.getD x.requirements_index default) w).2 ops0 :=
            (calCurrentOffset_sameShape ops x.offset _ w).trans hshape
          exact ih _ _ hshape2 hsorted.2 e he hactive

/-! Preservation of the placement invariant. -/

theorem timeIntersect_symm {a b : BufferRequirements}
    (h : timeIntersect a b) : timeIntersect b a :=
  ⟨h.2, h.1⟩

theorem mem_processed_of_mem_entries {ops0 : List OperatorRequirements}
    {reqs : List BufferRequirements} {processed : List Nat} {st : PlaceState}
    (inv : PlaceInv ops0 reqs processed st) {e : ListEntry}
    (he : e ∈ st.entries) : e.requirements_index ∈ processed :=
  inv.idsPerm.mem_iff.mp (List.mem_map_of_mem ListEntry.requirements_index he)

theorem placeBuffer_online_inv {ops0 : List OperatorRequirements}
    {reqs : List BufferRequirements} {processed : List Nat} {st : PlaceState}
    {id : Nat} (inv : PlaceInv ops0 reqs processed st)
    (hid : id < reqs.length) (hnotin : id ∉ processed)
    (hon : (reqs.getD id default).offline_offset = kOnlinePlannedBuffer) :
    PlaceInv ops0 reqs (processed ++ [id]) (placeBuffer reqs st id) := by
  have hpb : placeBuffer reqs st id =
      { offsets := st.offsets.set id
          (placeScan st.ops reqs (reqs.getD id default) 0 st.entries).1
        entries := insertEntry
          ⟨(placeScan st.ops reqs (reqs.getD id default) 0 st.entries).1, id⟩
          st.entries
        ops := (placeScan st.ops reqs (reqs.getD id default) 0 st.entries).2 }
      := by
    simp only [placeBuffer]
    rw [if_pos hon]
  rw [hpb]
  generalize hc : (placeScan st.ops reqs (reqs.getD id default) 0
    st.entries).1 = c
  have hidx_ne : ∀ e ∈ st.entries, e.requirements_index ≠ id := by
    intro e he heq
    exact hnotin (heq ▸ mem_processed_of_mem_entries inv he)
  constructor
  case sorted => exact insertEntry_sorted _ _ inv.sorted
  case idsPerm =>
    have h1 := (insertEntry_perm ⟨c, id⟩ st.entries).map
      ListEntry.requirements_index
    refine h1.trans ?_
    simp only [List.map_cons]
    exact (inv.idsPerm.cons id).trans
      (List.perm_append_singleton id processed).symm
  case idsBound =>
    intro e he
    rcases (mem_insertEntry _ e _).mp he with he | he
    · subst he
      exact hid
    · exact inv.idsBound e he
  case offAgree =>
    intro e he
    rcases (mem_insertEntry _ e _).mp he with he | he
    · subst he
      exact getD_set_self _ _ _ _ (by rw [inv.offLen]; exact hid)
    · rw [getD_set_ne _ _ _ _ _ (fun h => hidx_ne e he h.symm)]
      exact inv.offAgree e he
  case offLen => simp [inv.offLen]
  case shape =>
    have h1 : SameShape
        (placeScan st.ops reqs (reqs.getD id default) 0 st.entries).2
        st.ops := placeScan_sameShape reqs (reqs.getD id default)
      st.entries st.ops 0
    exact h1.trans inv.shape
  case pairOk =>
    intro e1 he1 e2 he2 hne hnp ht
    rcases (mem_insertEntry _ e1 _).mp he1 with he1 | he1 <;>
      rcases (mem_insertEntry _ e2 _).mp he2 with he2 | he2
    · subst he1; subst he2
      exact absurd rfl hne
    · subst he1
      have hactive : doesEntryOverlapInTime reqs e2
          (reqs.getD id default).first_time_used
          (reqs.getD id default).last_time_used = true := by
        rw [doesEntryOverlapInTime_iff]
        exact ⟨ht.2, ht.1⟩
      have hspec := placeScan_spec reqs (reqs.getD id default) ops0
        st.entries st.ops 0 inv.shape inv.sorted e2 he2 hactive
      rw [hc] at hspec
      rcases hspec with hsp | hsp | hsp
      · left
        left
        exact hsp
      · left
        right
        exact hsp
      · right; right
        exact hsp
    · subst he2
      have hactive : doesEntryOverlapInTime reqs e1
          (reqs.getD id default).first_time_used
          (reqs.getD id default).last_time_used = true := by
        rw [doesEntryOverlapInTime_iff]
        exact ⟨ht.1, ht.2⟩
      have hspec := placeScan_spec reqs (reqs.getD id default) ops0
        st.entries st.ops 0 inv.shape inv.sorted e1 he1 hactive
      rw [hc] at hspec
      rcases hspec with hsp | hsp | hsp
      · left
        right
        exact hsp
      · left
        left
        exact hsp
      · right; left
        exact hsp
    · exact inv.pairOk e1 he1 e2 he2 hne hnp ht
  case pinnedOff =>
    intro i hi hpin
    rcases List.mem_append.mp hi with hi | hi
    · have hne : id ≠ i := fun h => hnotin (h ▸ hi)
      rw [getD_set_ne _ _ _ _ _ hne]
      exact inv.pinnedOff i hi hpin
    · simp at hi
      subst hi
      exact absurd hon hpin

theorem placeBuffer_pinned_inv {ops0 : List OperatorRequirements}
    {reqs : List BufferRequirements} {processed : List Nat} {st : PlaceState}
    {id : Nat} (inv : PlaceInv ops0 reqs processed st)
    (hid : id < reqs.length) (hnotin : id ∉ processed)
    (hpin : (reqs.getD id default).offline_offset ≠ kOnlinePlannedBuffer)
    (hallp : ∀ e ∈ st.entries,
      (reqs.getD e.requirements_index default).offline_offset
        ≠ kOnlinePlannedBuffer) :
    PlaceInv ops0 reqs (processed ++ [id]) (placeBuffer reqs st id) ∧
    (∀ e ∈ (placeBuffer reqs st id).entries,
      (reqs.getD e.requirements_index default).offline_offset
        ≠ kOnlinePlannedBuffer) := by
  have hpb : placeBuffer reqs st id =
      { offsets := st.offsets.set id (reqs.getD id default).offline_offset
        entries := insertEntry ⟨(reqs.getD id default).offline_offset, id⟩
          st.entries
        ops := st.ops } := by
    simp only [placeBuffer]
    rw [if_neg hpin]
  rw [hpb]
  have hidx_ne : ∀ e ∈ st.entries, e.requirements_index ≠ id := by
    intro e he heq
    exact hnotin (heq ▸ mem_processed_of_mem_entries inv he)
  constructor
  · constructor
    case sorted => exact insertEntry_sorted _ _ inv.sorted
    case idsPerm =>
      have h1 := (insertEntry_perm ⟨(reqs.getD id default).offline_offset, id⟩
        st.entries).map ListEntry.requirements_index
      refine h1.trans ?_
      simp only [List.map_cons]
      exact (inv.idsPerm.cons id).trans
        (List.perm_append_singleton id processed).symm
    case idsBound =>
      intro e he
      rcases (mem_insertEntry _ e _).mp he with he | he
      · subst he
        exact hid
      · exact inv.idsBound e he
    case offAgree =>
      intro e he
      rcases (mem_insertEntry _ e _).mp he with he | he
      · subst he
        exact getD_set_self _ _ _ _ (by rw [inv.offLen]; exact hid)
      · rw [getD_set_ne _ _ _ _ _ (fun h => hidx_ne e he h.symm)]
        exact inv.offAgree e he
    case offLen => simp [inv.offLen]
    case shape => exact inv.shape
    case pairOk =>
      intro e1 he1 e2 he2 hne hnp ht
      rcases (mem_insertEntry _ e1 _).mp he1 with he1 | he1 <;>
        rcases (mem_insertEntry _ e2 _).mp he2 with he2 | he2
      · subst he1; subst he2
        exact absurd rfl hne
      · subst he1
        exact absurd ⟨hpin, hallp e2 he2⟩ hnp
      · subst he2
        exact absurd ⟨hallp e1 he1, hpin⟩ hnp
      · exact inv.pairOk e1 he1 e2 he2 hne hnp ht
    case pinnedOff =>
      intro i hi hpin2
      rcases List.mem_append.mp hi with hi | hi
      · have hne : id ≠ i := fun h => hnotin (h ▸ hi)
        rw [getD_set_ne _ _ _ _ _ hne]
        exact inv.pinnedOff i hi hpin2
      · simp at hi
        subst hi
        exact getD_set_self _ _ _ _ (by rw [inv.offLen]; exact hid)
  · intro e he
    rcases (mem_insertEntry _ e _).mp he with he | he
    · subst he
      exact hpin
    · exact hallp e he

theorem foldl_pinned_phase (ops0 : List OperatorRequirements)
    (reqs : List BufferRequirements) :
    ∀ (ids : List Nat) (processed : List Nat) (st : PlaceState),
      (∀ i ∈ ids, i < reqs.length ∧
        (reqs.getD i default).offline_offset ≠ kOnlinePlannedBuffer) →
      (processed ++ ids).Nodup →
      PlaceInv ops0 reqs processed st →
      (∀ e ∈ st.entries,
        (reqs.getD e.requirements_index default).offline_offset
          ≠ kOnlinePlannedBuffer) →
      PlaceInv ops0 reqs (processed ++ ids)
          (ids.foldl (placeBuffer reqs) st) ∧
      (∀ e ∈ (ids.foldl (placeBuffer reqs) st).entries,
        (reqs.getD e.requirements_index default).offline_offset
          ≠ kOnlinePlannedBuffer) := by
  intro ids
  induction ids with
  | nil =>
    intro processed st _ _ inv hallp
    rw [List.append_nil]
    exact ⟨inv, hallp⟩
  | cons id ids ih =>
    intro processed st hids hnd inv hallp
    have hid := hids id (List.mem_cons_self id ids)
    have hnotin : id ∉ processed := by
      rw [List.nodup_append] at hnd
      exact fun hmem => hnd.2.2 hmem (List.mem_cons_self id ids)
    have hstep := placeBuffer_pinned_inv inv hid.1 hnotin hid.2 hallp
    have hassoc : processed ++ id :: ids = (processed ++ [id]) ++ ids := by
      simp
    rw [hassoc, List.foldl_cons]
    exact ih (processed ++ [id]) (placeBuffer reqs st id)
      (fun i hi => hids i (List.mem_cons_of_mem id hi))
      (by rw [← hassoc]; exact hnd) hstep.1 hstep.2

theorem foldl_online_phase (ops0 : List OperatorRequirements)
    (reqs : List BufferRequirements) :
    ∀ (ids : List Nat) (processed : List Nat) (st : PlaceState),
      (∀ i ∈ ids, i < reqs.length ∧
        (reqs.getD i default).offline_offset = kOnlinePlannedBuffer) →
      (processed ++ ids).Nodup →
      PlaceInv ops0 reqs processed st →
      PlaceInv ops0 reqs (processed ++ ids)
        (ids.foldl (placeBuffer reqs) st) := by
  intro ids
  induction ids with
  | nil =>
    intro processed st _ _ inv
    rw [List.append_nil]
    exact inv
  | cons id ids ih =>
    intro processed st hids hnd inv
    have hid := hids id (List.mem_cons_self id ids)
    have hnotin : id ∉ processed := by
      rw [List.nodup_append] at hnd
      exact fun hmem => hnd.2.2 hmem (List.mem_cons_self id ids)
    have hstep := placeBuffer_online_inv inv hid.1 hnotin hid.2
    have hassoc : processed ++ id :: ids = (processed ++ [id]) ++ ids := by
      simp
    rw [hassoc, List.foldl_cons]
    exact ih (processed ++ [id]) (placeBuffer reqs st id)
      (fun i hi => hids i (List.mem_cons_of_mem id hi))
      (by rw [← hassoc]; exact hnd) hstep

theorem onlineSortInput_map_id (reqs : List BufferRequirements) :
    (onlineSortInput reqs).map SortKey.id =
      ((List.range reqs.length).filter
        (fun i => isOnline (reqs.getD i default))).reverse := by
  unfold onlineSortInput
  rw [List.map_map]
  have h : ∀ (l : List Nat), l.map (SortKey.id ∘ fun i =>
      (⟨(reqs.getD i default).first_time_used,
        (reqs.getD i default).last_time_used, i⟩ : SortKey)) = l := by
    intro l
    induction l with
    | nil => rfl
    | cons x xs ih => simp only [List.map_cons, ih, Function.comp_apply]
  rw [h]

theorem sorted_online_ids_perm (reqs : List BufferRequirements) :
    List.Perm ((sortInPlace2Level (onlineSortInput reqs)).map SortKey.id)
      ((List.range reqs.length).filter
        (fun i => isOnline (reqs.getD i default))) := by
  refine ((sortInPlace2Level_perm (onlineSortInput reqs)).map _).trans ?_
  rw [onlineSortInput_map_id]
  exact List.reverse_perm _

theorem placementOrder_perm (reqs : List BufferRequirements) :
    List.Perm (placementOrder reqs) (List.range reqs.length) := by
  unfold placementOrder
  refine (List.Perm.append (List.Perm.refl (pinnedIds reqs))
    (sorted_online_ids_perm reqs)).trans ?_
  unfold pinnedIds
  have hfp := List.filter_append_perm
    (fun i => !(isOnline (reqs.getD i default))) (List.range reqs.length)
  simpa [Bool.not_not] using hfp

theorem placementOrder_nodup (reqs : List BufferRequirements) :
    (placementOrder reqs).Nodup :=
  ((placementOrder_perm reqs).nodup_iff).mpr (List.nodup_range _)

/-- The master invariant at the end of the placement loop. -/
theorem calculateOffsets_inv (ops : List OperatorRequirements)
    (reqs : List BufferRequirements) :
    PlaceInv ops reqs (placementOrder reqs) (calculateOffsets ops reqs) := by
  have hinit : PlaceInv ops reqs [] ⟨initialOffsets reqs, [], ops⟩ :=
    { sorted := List.Pairwise.nil
      idsPerm := by simp
      idsBound := by simp
      offAgree := by simp
      offLen := by simp [initialOffsets]
      shape := rfl
      pairOk := by simp
      pinnedOff := by simp }
  have hnd := placementOrder_nodup reqs
  unfold placementOrder at hnd
  have hpinned_cond : ∀ i ∈ pinnedIds reqs, i < reqs.length ∧
      (reqs.getD i default).offline_offset ≠ kOnlinePlannedBuffer := by
    intro i hi
    unfold pinnedIds at hi
    rw [List.mem_filter, List.mem_range] at hi
    refine ⟨hi.1, ?_⟩
    have := hi.2
    simpa [isOnline] using this
  have honline_cond : ∀ i ∈ (sortInPlace2Level (onlineSortInput reqs)).map
      SortKey.id, i < reqs.length ∧
      (reqs.getD i default).offline_offset = kOnlinePlannedBuffer := by
    intro i hi
    have hi2 := (sorted_online_ids_perm reqs).mem_iff.mp hi
    rw [List.mem_filter, List.mem_range] at hi2
    refine ⟨hi2.1, ?_⟩
    have := hi2.2
    simpa [isOnline] using this
  have hphase1 := foldl_pinned_phase ops reqs (pinnedIds reqs) []
    ⟨initialOffsets reqs, [], ops⟩ hpinned_cond
    (by simpa using (List.nodup_append.mp hnd).1) hinit (by simp)
  unfold calculateOffsets placementOrder
  rw [List.foldl_append]
  exact foldl_online_phase ops reqs
    ((sortInPlace2Level (onlineSortInput reqs)).map SortKey.id)
    (pinnedIds reqs) _ honline_cond hnd
    (by simpa using hphase1.1)

/-! Claim theorems. -/

theorem foldl_max_congr {α : Type _} :
    ∀ (l : List α) (g g2 : α → Int), (∀ e ∈ l, g e = g2 e) →
    ∀ a : Int, l.foldl (fun m e => max m (g e)) a
      = l.foldl (fun m e => max m (g2 e)) a := by
  intro l
  induction l with
  | nil => intro g g2 _ a; rfl
  | cons x xs ih =>
    intro g g2 h a
    simp only [List.foldl_cons]
    rw [h x (List.mem_cons_self x xs)]
    exact ih g g2 (fun e he => h e (List.mem_cons_of_mem x he)) _

/-- C1 (amended): after placement, for every two buffers at least one of
which is online-planned, if their live intervals intersect then either
their byte ranges are disjoint or the overlap policy admits the pair in one
of the two orientations (an operator k has one buffer as input and the
other as output, the input buffer's last step equals the output buffer's
first step, and k's kind is CONV2D or ADD). -/
theorem C1_disjoint_or_admitted (ops : List OperatorRequirements)
    (reqs : List BufferRequirements) (i j : Nat)
    (hi : i < reqs.length) (hj : j < reqs.length) (hij : i ≠ j)
    (hnp : ¬((reqs.getD i default).offline_offset ≠ kOnlinePlannedBuffer ∧
             (reqs.getD j default).offline_offset ≠ kOnlinePlannedBuffer))
    (ht : timeIntersect (reqs.getD i default) (reqs.getD j default)) :
    byteDisjoint ((calculateOffsets ops reqs).offsets.getD i 0)
        (reqs.getD i default)
        ((calculateOffsets ops reqs).offsets.getD j 0) (reqs.getD j default)
    ∨ admittedPair ops (reqs.getD i default) (reqs.getD j default)
    ∨ admittedPair ops (reqs.getD j default) (reqs.getD i default) := by
  have inv := calculateOffsets_inv ops reqs
  have hmi : i ∈ (calculateOffsets ops reqs).entries.map
      ListEntry.requirements_index := by
    rw [inv.idsPerm.mem_iff, (placementOrder_perm reqs).mem_iff]
    exact List.mem_range.mpr hi
  have hmj : j ∈ (calculateOffsets ops reqs).entries.map
      ListEntry.requirements_index := by
    rw [inv.idsPerm.mem_iff, (placementOrder_perm reqs).mem_iff]
    exact List.mem_range.mpr hj
  obtain ⟨e1, he1, hei⟩ := List.mem_map.mp hmi
  obtain ⟨e2, he2, hej⟩ := List.mem_map.mp hmj
  subst hei
  subst hej
  rw [inv.offAgree e1 he1, inv.offAgree e2 he2]
  exact inv.pairOk e1 he1 e2 he2 hij hnp ht

/-- C1 witness: a concrete CONV_2D input/output pair at which the amended
claim's hypotheses hold and the disjunction is delivered by the theorem. -/
theorem C1_witness :
    ((0 : Nat) < exC6Reqs.length ∧ (1 : Nat) < exC6Reqs.length ∧
      (0 : Nat) ≠ 1 ∧
      ¬((exC6Reqs.getD 0 default).offline_offset ≠ kOnlinePlannedBuffer ∧
        (exC6Reqs.getD 1 default).offline_offset ≠ kOnlinePlannedBuffer) ∧
      timeIntersect (exC6Reqs.getD 0 default) (exC6Reqs.getD 1 default)) ∧
    (byteDisjoint ((calculateOffsets exOpsConv exC6Reqs).offsets.getD 0 0)
        (exC6Reqs.getD 0 default)
        ((calculateOffsets exOpsConv exC6Reqs).offsets.getD 1 0)
        (exC6Reqs.getD 1 default)
      ∨ admittedPair exOpsConv (exC6Reqs.getD 0 default)
          (exC6Reqs.getD 1 default)
      ∨ admittedPair exOpsConv (exC6Reqs.getD 1 default)
          (exC6Reqs.getD 0 default)) :=
  ⟨⟨by decide, by decide, by decide, by decide, by decide⟩,
    C1_disjoint_or_admitted exOpsConv exC6Reqs 0 1 (by decide) (by decide)
      (by decide) (by decide) (by decide)⟩

/-- C1 counterexample: two buffers pinned at the same offset are placed
overlapping in time and memory with no operator admitting the pair, so the
claim as stated (over all buffer pairs) fails. -/
theorem C1_counterexample :
    timeIntersect (exPinnedReqs.getD 0 default) (exPinnedReqs.getD 1 default) ∧
    (calculateOffsets [] exPinnedReqs).offsets.getD 0 0 = 0 ∧
    (calculateOffsets [] exPinnedReqs).offsets.getD 1 0 = 0 ∧
    ¬ byteDisjoint ((calculateOffsets [] exPinnedReqs).offsets.getD 0 0)
        (exPinnedReqs.getD 0 default)
        ((calculateOffsets [] exPinnedReqs).offsets.getD 1 0)
        (exPinnedReqs.getD 1 default) ∧
    ¬ admittedPair [] (exPinnedReqs.getD 0 default)
        (exPinnedReqs.getD 1 default) ∧
    ¬ admittedPair [] (exPinnedReqs.getD 1 default)
        (exPinnedReqs.getD 0 default) := by
  refine ⟨by decide, by decide, by decide, by decide, ?_, ?_⟩
  · rintro ⟨k, hk, -, -, -, -⟩
    simp at hk
  · rintro ⟨k, hk, -, -, -, -⟩
    simp at hk

/-- C4: every buffer registered with a pinned offline offset keeps exactly
that value: the pinned AddBuffer overload records the offset in the new
slot, and placement assigns precisely the offline offset to every pinned
buffer. -/
theorem C4_pinning_honoured :
    (∀ (p : TopologicalMemoryPlanner) (size f l off : Int)
        (inp outp : List Bool),
      (addBufferPinned p size f l inp outp off).1 = TfLiteStatus.ok →
      ((addBufferPinned p size f l inp outp off).2.requirements.getD
          p.requirements.length default).offline_offset = off) ∧
    (∀ (ops : List OperatorRequirements) (reqs : List BufferRequirements)
        (i : Nat), i < reqs.length →
      (reqs.getD i default).offline_offset ≠ kOnlinePlannedBuffer →
      (calculateOffsets ops reqs).offsets.getD i 0 =
        (reqs.getD i default).offline_offset) := by
  constructor
  · intro p size f l off inp outp h
    by_cases hfull : p.requirements.length ≥ p.max_buffer_count
    · simp [addBufferPinned, addBuffer, hfull] at h
    · simp only [addBufferPinned, addBuffer, hfull, if_false]
      rw [getD_set_self]
      simp
  · intro ops reqs i hi hpin
    have inv := calculateOffsets_inv ops reqs
    refine inv.pinnedOff i ?_ hpin
    rw [(placementOrder_perm reqs).mem_iff]
    exact List.mem_range.mpr hi

/-- C4 witness: a pinned buffer added at offline offset 64 is recorded with
that offset, and a concrete pinned record is placed at its offline
offset. -/
theorem C4_witness :
    (((addBufferPinned (mkPlanner 4 1) 8 0 1 [true] [false] 64).1
        = TfLiteStatus.ok →
      ((addBufferPinned (mkPlanner 4 1) 8 0 1 [true] [false]
          64).2.requirements.getD 0 default).offline_offset = 64) ∧
     ((0 : Nat) < exPinnedReqs.length ∧
      (exPinnedReqs.getD 0 default).offline_offset ≠ kOnlinePlannedBuffer ∧
      (calculateOffsets [] exPinnedReqs).offsets.getD 0 0 =
        (exPinnedReqs.getD 0 default).offline_offset)) :=
  ⟨fun h => C4_pinning_honoured.1 (mkPlanner 4 1) 8 0 1 64 [true] [false] h,
   by decide, by decide,
   C4_pinning_honoured.2 [] exPinnedReqs 0 (by decide) (by decide)⟩

/-- C5: GetMaximumMemorySize on a stale plan returns the maximum, over the
registered buffers, of assigned offset plus size (0 when no buffer has been
added, the fold over the empty range). -/
theorem C5_high_water (p : TopologicalMemoryPlanner)
    (hneed : p.need_to_calculate_offsets = true) :
    (getMaximumMemorySize p).1 =
      (List.range (getBufferCount p)).foldl
        (fun m i => max m
          ((calculateOffsetsIfNeeded p).buffer_offsets.getD i 0
            + (p.requirements.getD i default).size)) 0 := by
  by_cases hz : p.requirements.length = 0
  · simp [getMaximumMemorySize, getBufferCount, calculateOffsetsIfNeeded, hz]
  · have hcalc : calculateOffsetsIfNeeded p =
        { p with
          buffer_offsets :=
            (calculateOffsets p.ops_requirements p.requirements).offsets
          entries := (calculateOffsets p.ops_requirements p.requirements).entries
          ops_requirements :=
            (calculateOffsets p.ops_requirements p.requirements).ops
          need_to_calculate_offsets := false } := by
      simp [calculateOffsetsIfNeeded, hneed, hz]
    have inv := calculateOffsets_inv p.ops_requirements p.requirements
    have hlhs : (getMaximumMemorySize p).1 =
        (calculateOffsets p.ops_requirements p.requirements).entries.foldl
          (fun m e => max m (e.offset +
            (p.requirements.getD e.requirements_index default).size)) 0 := by
      rw [getMaximumMemorySize, hcalc]
      simp [hz]
    rw [hlhs, hcalc]
    have hcong := foldl_max_congr
      (calculateOffsets p.ops_requirements p.requirements).entries
      (fun e => e.offset +
        (p.requirements.getD e.requirements_index default).size)
      (fun e =>
        (calculateOffsets p.ops_requirements p.requirements).offsets.getD
          e.requirements_index 0 +
        (p.requirements.getD e.requirements_index default).size)
      (fun e he => by
        simp only []
        rw [inv.offAgree e he]) 0
    rw [hcong]
    rw [← List.foldl_map ListEntry.requirements_index
      (fun m i => max m
        ((calculateOffsets p.ops_requirements p.requirements).offsets.getD i 0
          + (p.requirements.getD i default).size)) _ 0]
    have hperm := inv.idsPerm.trans (placementOrder_perm p.requirements)
    exact hperm.foldl_eq' (fun x _hx y _hy z => by
      rw [max_assoc, max_comm ((calculateOffsets p.ops_requirements
        p.requirements).offsets.getD x 0
        + (p.requirements.getD x default).size), ← max_assoc]) 0

/-- C5 witness: the high-water equation instantiated at a concrete stale
planner holding two buffers. -/
theorem C5_witness :
    exPlannerBasic.need_to_calculate_offsets = true ∧
    (getMaximumMemorySize exPlannerBasic).1 =
      (List.range (getBufferCount exPlannerBasic)).foldl
        (fun m i => max m
          ((calculateOffsetsIfNeeded exPlannerBasic).buffer_offsets.getD i 0
            + (exPlannerBasic.requirements.getD i default).size)) 0 :=
  ⟨by decide, C5_high_water exPlannerBasic (by decide)⟩

theorem getD_replicate_self {α : Type _} :
    ∀ (n k : Nat) (a : α), (List.replicate n a).getD k a = a := by
  intro n
  induction n with
  | zero => intro k a; simp
  | succ m ih =>
    intro k a
    cases k with
    | zero => simp [List.replicate]
    | succ k2 =>
      rw [List.replicate]
      rw [List.getD_cons_succ]
      exact ih k2 a

theorem foldl_add_lower {α : Type _} (c : Int) (f : Int → α → Int)
    (hf : ∀ (a : Int) (x : α), a + c ≤ f a x) :
    ∀ (l : List α) (a : Int), a + l.length * c ≤ l.foldl f a := by
  intro l
  induction l with
  | nil => intro a; simp
  | cons x t ih =>
    intro a
    have h1 := ih (f a x)
    have h2 := hf a x
    simp only [List.foldl_cons, List.length_cons] at *
    have hcast : ((t.length + 1 : Nat) : Int) * c = (t.length : Int) * c + c := by
      push_cast
      ring
    rw [hcast]
    linarith

/-- The source's row-major cursor scan never produces a negative padding
length for non-negative input dimensions: every step advances the cursor by
at least one input pixel, so the final cursor is at least the input tensor
size.  This is the sense in which the spec's clamping of the forward
padding length at 0 is vacuous. -/
theorem calForwardConv2DMemPaddingLen_nonneg (q : ConvOpParams)
    (hh : 0 ≤ q.input_height) (hw : 0 ≤ q.input_width)
    (_hc : 0 ≤ q.input_channel) :
    0 ≤ calForwardConv2DMemPaddingLen q := by
  have hgoal : calForwardConv2DMemPaddingLen q =
      (List.range q.input_height.toNat).foldl (fun acc (hi : Nat) =>
        (List.range q.input_width.toNat).foldl (fun acc2 (wi : Nat) =>
          max acc2 ((max 0 (min (q.output_height - 1)
              (((hi : Int) + q.padding).fdiv q.filter_height)) *
            q.output_width + max 0 (min (q.output_width - 1)
              (((wi : Int) + q.padding).fdiv q.filter_width)) + 1) *
            q.output_channel) + q.input_channel) acc) 0
        - q.input_height * q.input_width * q.input_channel := by
    unfold calForwardConv2DMemPaddingLen
    rfl
  have hinner : ∀ (a : Int) (hi : Nat),
      a + (q.input_width.toNat : Int) * q.input_channel ≤
        (List.range q.input_width.toNat).foldl (fun acc2 (wi : Nat) =>
          max acc2 ((max 0 (min (q.output_height - 1)
              (((hi : Int) + q.padding).fdiv q.filter_height)) *
            q.output_width + max 0 (min (q.output_width - 1)
              (((wi : Int) + q.padding).fdiv q.filter_width)) + 1) *
            q.output_channel) + q.input_channel) a := by
    intro a hi
    have hb := foldl_add_lower q.input_channel
      (fun acc2 (wi : Nat) =>
        max acc2 ((max 0 (min (q.output_height - 1)
            (((hi : Int) + q.padding).fdiv q.filter_height)) *
          q.output_width + max 0 (min (q.output_width - 1)
            (((wi : Int) + q.padding).fdiv q.filter_width)) + 1) *
          q.output_channel) + q.input_channel)
      (fun a2 wi => by
        simp only []
        have := le_max_left a2 ((max 0 (min (q.output_height - 1)
            (((hi : Int) + q.padding).fdiv q.filter_height)) *
          q.output_width + max 0 (min (q.output_width - 1)
            (((wi : Int) + q.padding).fdiv q.filter_width)) + 1) *
          q.output_channel)
        omega)
      (List.range q.input_width.toNat) a
    rw [List.length_range] at hb
    exact hb
  have houter := foldl_add_lower
    ((q.input_width.toNat : Int) * q.input_channel)
    (fun acc (hi : Nat) =>
      (List.range q.input_width.toNat).foldl (fun acc2 (wi : Nat) =>
        max acc2 ((max 0 (min (q.output_height - 1)
            (((hi : Int) + q.padding).fdiv q.filter_height)) *
          q.output_width + max 0 (min (q.output_width - 1)
            (((wi : Int) + q.padding).fdiv q.filter_width)) + 1) *
          q.output_channel) + q.input_channel) acc)
    (fun a hi => hinner a hi) (List.range q.input_height.toNat) 0
  rw [List.length_range, Int.toNat_of_nonneg hh, Int.toNat_of_nonneg hw]
    at houter
  have hassoc : q.input_height * (q.input_width * q.input_channel) =
      q.input_height * q.input_width * q.input_channel := by ring
  rw [hassoc] at houter
  rw [hgoal]
  linarith [houter]

/-- C2 (amended): when some operator k is the first to admit the pair
(prior as input, current as output), CalCurrentOffset contributes exactly
prior offset plus displacement, where the ADD displacement is 0 and the
CONV_2D displacement is the forward-padding length plus the size
difference of the two buffers; this value is used unconditionally, and the
forward-padding length itself is never negative for non-negative input
dimensions (so clamping it at 0 changes nothing). -/
theorem C2_admitted_offset :
    (∀ (ops : List OperatorRequirements) (off : Int)
        (pr cr : BufferRequirements) (k : Nat),
      admitIndex ops pr cr = some k →
      ((ops.getD k default).op_type = BuiltinOperator.ADD →
        (calCurrentOffset ops off pr cr).1 = off) ∧
      ((ops.getD k default).op_type = BuiltinOperator.CONV_2D →
        (calCurrentOffset ops off pr cr).1 =
          off + (calForwardConv2DMemPaddingLen (ops.getD k default).params
            + pr.size - cr.size))) ∧
    (∀ q : ConvOpParams, 0 ≤ q.input_height → 0 ≤ q.input_width →
      0 ≤ q.input_channel → 0 ≤ calForwardConv2DMemPaddingLen q) := by
  constructor
  · intro ops off pr cr k hadm
    have hpred := admitIndex_some_pred hadm
    have hval : (calCurrentOffset ops off pr cr).1 =
        off + calculatePaddingLen (ops.getD k default) pr cr := by
      simp only [calCurrentOffset, hadm]
    constructor
    · intro hty
      rw [hval]
      unfold calculatePaddingLen
      rw [hty]
      simp
    · intro hty
      rw [hval]
      unfold calculatePaddingLen
      rw [hty]
      simp [hpred.2.2.2]
  · exact calForwardConv2DMemPaddingLen_nonneg

/-- C2 witness: the amended formula instantiated at the degenerate
convolution example. -/
theorem C2_witness :
    (admitIndex exOpsConv exPriorReq exCurReqZero = some 0 ∧
     (calCurrentOffset exOpsConv 0 exPriorReq exCurReqZero).1 =
       0 + (calForwardConv2DMemPaddingLen (exOpsConv.getD 0 default).params
         + exPriorReq.size - exCurReqZero.size)) ∧
    (0 ≤ exConvSmall.input_height ∧
     0 ≤ calForwardConv2DMemPaddingLen exConvSmall) :=
  ⟨⟨by decide,
    (C2_admitted_offset.1 exOpsConv 0 exPriorReq exCurReqZero 0
      (by decide)).2 (by decide)⟩,
   by decide,
   C2_admitted_offset.2 exConvSmall (by decide) (by decide) (by decide)⟩

/-- C2 counterexample: with the degenerate convolution and a zero-sized
output buffer the admitted contribution 6 strictly exceeds the default
non-overlap baseline prior offset + prior size = 1, and CalCurrentOffset
returns 6 anyway: the claimed fallback to the baseline does not exist in
the code. -/
theorem C2_counterexample :
    admitIndex exOpsConv exPriorReq exCurReqZero = some 0 ∧
    (calCurrentOffset exOpsConv 0 exPriorReq exCurReqZero).1 = 6 ∧
    (0 : Int) + exPriorReq.size < 6 := by decide

/-- C3 (code_bug evaluation): SortInPlace2Level as written sorts in
descending order of the first key and ignores the second key entirely
(needSwap2Level reads val1 in both branches and its comparison direction is
reversed), and the placement order loads online buffers in reverse
insertion order; on the prefix of the repository's own
TestSortInPlace2Level case the result contradicts the expected
ascending-with-descending-ties order, and two same-first-step buffers are
visited in reverse insertion order. -/
theorem C3_sort_eval :
    sortInPlace2Level [⟨1, 10, 0⟩, ⟨2, 9, 1⟩, ⟨2, 8, 2⟩]
        = [⟨2, 9, 1⟩, ⟨2, 8, 2⟩, ⟨1, 10, 0⟩] ∧
    placementOrder exC6Reqs = [1, 0] := by decide

theorem calcIfNeeded_requirements (p : TopologicalMemoryPlanner) :
    (calculateOffsetsIfNeeded p).requirements = p.requirements := by
  unfold calculateOffsetsIfNeeded
  split
  · rfl
  · rfl

/-- C6 (amended): an operator's reverse flag starts false at construction,
and a CalCurrentOffset evaluation sets the flag of exactly the admitting
operator index, exactly when the computed displacement (the padding value,
for CONV_2D the forward-padding length plus the buffer size difference) is
positive; every other flag is left as it was. -/
theorem C6_reverse_flag :
    (∀ (mb os k : Nat),
      ((mkPlanner mb os).ops_requirements.getD k default).reverse = false) ∧
    (∀ (ops : List OperatorRequirements) (off : Int)
        (pr cr : BufferRequirements) (k : Nat),
      (((calCurrentOffset ops off pr cr).2.getD k default).reverse = true ↔
        ((ops.getD k default).reverse = true ∨
         (admitIndex ops pr cr = some k ∧
          0 < calculatePaddingLen (ops.getD k default) pr cr)))) := by
  constructor
  · intro mb os k
    have h : (mkPlanner mb os).ops_requirements =
        List.replicate os (default : OperatorRequirements) := rfl
    rw [h, getD_replicate_self]
    rfl
  · intro ops off pr cr k
    cases hadm : admitIndex ops pr cr with
    | none =>
      have h2 : (calCurrentOffset ops off pr cr).2 = ops := by
        simp only [calCurrentOffset, hadm]
      rw [h2]
      simp
    | some i =>
      have hlt : i < ops.length := admitIndex_some_lt hadm
      by_cases hp : calculatePaddingLen (ops.getD i default) pr cr > 0
      · have h2 : (calCurrentOffset ops off pr cr).2 =
            ops.set i { ops.getD i default with reverse := true } := by
          unfold calCurrentOffset
          rw [hadm]
          simp only [hp, if_true]
        rw [h2]
        by_cases hk : k = i
        · subst hk
          rw [getD_set_self _ _ _ _ hlt]
          constructor
          · intro _
            exact Or.inr ⟨rfl, hp⟩
          · intro _
            rfl
        · rw [getD_set_ne _ _ _ _ _ (fun h => hk h.symm)]
          have : ¬(some i = some k ∧
              0 < calculatePaddingLen (ops.getD k default) pr cr) := by
            rintro ⟨hsome, -⟩
            exact hk (Option.some.inj hsome).symm
          simp only [this, or_false]
      · have h2 : (calCurrentOffset ops off pr cr).2 = ops := by
          simp only [calCurrentOffset, hadm, hp, if_false]
        rw [h2]
        have : ¬(some i = some k ∧
            0 < calculatePaddingLen (ops.getD k default) pr cr) := by
          rintro ⟨hsome, hpos⟩
          rw [← Option.some.inj hsome] at hpos
          exact hp hpos
        simp only [this, or_false]

/-- C6 witness: both parts instantiated at operator index 0 of the
degenerate convolution example. -/
theorem C6_witness :
    ((mkPlanner 1 1).ops_requirements.getD 0 default).reverse = false ∧
    (((calCurrentOffset exOpsConv 0 exPriorReq exCurReqZero).2.getD 0
        default).reverse = true ↔
      ((exOpsConv.getD 0 default).reverse = true ∨
       (admitIndex exOpsConv exPriorReq exCurReqZero = some 0 ∧
        0 < calculatePaddingLen (exOpsConv.getD 0 default) exPriorReq
          exCurReqZero))) :=
  ⟨C6_reverse_flag.1 1 1 0,
   C6_reverse_flag.2 exOpsConv 0 exPriorReq exCurReqZero 0⟩

/-- C6 counterexample: a placement run in which a CONV_2D overlap admission
with forward-padding length 5 > 0 is applied (the output lands at the
input's offset, overlapping it), yet the computed displacement is negative
and the operator's reverse flag stays false, contradicting the claim that
the flag is set whenever a CONV_2D admission with positive forward-padding
length is used. -/
theorem C6_counterexample :
    calForwardConv2DMemPaddingLen exConvSmall = 5 ∧
    admitIndex exOpsConv (exC6Reqs.getD 1 default) (exC6Reqs.getD 0 default)
      = some 0 ∧
    (calculateOffsets exOpsConv exC6Reqs).offsets = [0, 0] ∧
    ¬ byteDisjoint ((calculateOffsets exOpsConv exC6Reqs).offsets.getD 0 0)
        (exC6Reqs.getD 0 default)
        ((calculateOffsets exOpsConv exC6Reqs).offsets.getD 1 0)
        (exC6Reqs.getD 1 default) ∧
    ((calculateOffsets exOpsConv exC6Reqs).ops.getD 0 default).reverse
      = false := by decide

theorem calcIfNeeded_of_not_need (p : TopologicalMemoryPlanner)
    (h : p.need_to_calculate_offsets = false) :
    calculateOffsetsIfNeeded p = p := by
  unfold calculateOffsetsIfNeeded
  rw [if_pos]
  left
  simp [h]

theorem calcIfNeeded_idem (p : TopologicalMemoryPlanner) :
    calculateOffsetsIfNeeded (calculateOffsetsIfNeeded p)
      = calculateOffsetsIfNeeded p := by
  by_cases h : ¬p.need_to_calculate_offsets ∨ p.requirements.length = 0
  · have h1 : calculateOffsetsIfNeeded p = p := by
      unfold calculateOffsetsIfNeeded
      rw [if_pos h]
    rw [h1, h1]
  · have h1 : calculateOffsetsIfNeeded p =
        { p with
          buffer_offsets :=
            (calculateOffsets p.ops_requirements p.requirements).offsets
          entries := (calculateOffsets p.ops_requirements p.requirements).entries
          ops_requirements :=
            (calculateOffsets p.ops_requirements p.requirements).ops
          need_to_calculate_offsets := false } := by
      unfold calculateOffsetsIfNeeded
      rw [if_neg h]
    rw [h1]
    exact calcIfNeeded_of_not_need _ rfl

theorem getMaximumMemorySize_snd (p : TopologicalMemoryPlanner) :
    (getMaximumMemorySize p).2 = calculateOffsetsIfNeeded p := by
  unfold getMaximumMemorySize
  dsimp only
  split
  · rfl
  · rfl

theorem doAnyBuffersOverlap_snd (p : TopologicalMemoryPlanner) :
    (doAnyBuffersOverlap p).2 = calculateOffsetsIfNeeded p := rfl

theorem getOffsetForBuffer_snd (p : TopologicalMemoryPlanner) (idx : Int) :
    (getOffsetForBuffer p idx).2.2 = calculateOffsetsIfNeeded p := by
  unfold getOffsetForBuffer
  dsimp only
  split
  · rfl
  · rfl

/-- C7: DoAnyBuffersOverlap returns true exactly when two distinct buffers
overlap both in time and in memory under the computed plan; the overlap
policy plays no role, so overlap-admitted pairs are reported as well. -/
theorem C7_overlap_query (p : TopologicalMemoryPlanner) :
    (doAnyBuffersOverlap p).1 = true ↔
      ∃ i j : Nat, i < getBufferCount p ∧ j < getBufferCount p ∧ i ≠ j ∧
        timeIntersect
          ((calculateOffsetsIfNeeded p).requirements.getD i default)
          ((calculateOffsetsIfNeeded p).requirements.getD j default) ∧
        ¬ byteDisjoint
          ((calculateOffsetsIfNeeded p).buffer_offsets.getD i 0)
          ((calculateOffsetsIfNeeded p).requirements.getD i default)
          ((calculateOffsetsIfNeeded p).buffer_offsets.getD j 0)
          ((calculateOffsetsIfNeeded p).requirements.getD j default) := by
  have hcount : getBufferCount p
      = (calculateOffsetsIfNeeded p).requirements.length := by
    rw [getBufferCount, calcIfNeeded_requirements]
  rw [hcount]
  unfold doAnyBuffersOverlap
  simp only [List.any_eq_true, List.mem_range, Bool.and_eq_true,
    Bool.not_eq_true', decide_eq_false_iff_not, decide_eq_true_eq, not_lt,
    timeIntersect, byteDisjoint, not_or]
  constructor
  · rintro ⟨i, hi, j, hj, ⟨⟨⟨hne, h1⟩, h2⟩, h3⟩, h4⟩
    exact ⟨i, j, hi, hj, hne, ⟨h1, h2⟩, h3, h4⟩
  · rintro ⟨i, j, hi, hj, hne, ⟨h1, h2⟩, h3, h4⟩
    exact ⟨i, hi, j, hj, ⟨⟨⟨hne, h1⟩, h2⟩, h3⟩, h4⟩

/-- C8 (amended): a successful AddBuffer (either form) marks the plan
stale, AddOperatorInfo leaves staleness untouched, a non-stale plan is not
recomputed, recomputation clears the stale flag whenever at least one
buffer exists, CalculateOffsetsIfNeeded is idempotent, and every query
(GetMaximumMemorySize, GetOffsetForBuffer, DoAnyBuffersOverlap) repeated on
the state it returned yields the identical result with no further
placement work. -/
theorem C8_staleness :
    (∀ (p : TopologicalMemoryPlanner) (s f l : Int) (inp outp : List Bool),
      (addBuffer p s f l inp outp).1 = TfLiteStatus.ok →
      (addBuffer p s f l inp outp).2.need_to_calculate_offsets = true) ∧
    (∀ (p : TopologicalMemoryPlanner) (s f l off : Int)
        (inp outp : List Bool),
      (addBufferPinned p s f l inp outp off).1 = TfLiteStatus.ok →
      (addBufferPinned p s f l inp outp off).2.need_to_calculate_offsets
        = true) ∧
    (∀ (p : TopologicalMemoryPlanner) (id : Nat) (ty : BuiltinOperator)
        (pr : ConvOpParams),
      (addOperatorInfo p id ty pr).2.need_to_calculate_offsets
        = p.need_to_calculate_offsets) ∧
    (∀ p : TopologicalMemoryPlanner, p.need_to_calculate_offsets = false →
      calculateOffsetsIfNeeded p = p) ∧
    (∀ p : TopologicalMemoryPlanner, 0 < p.requirements.length →
      (calculateOffsetsIfNeeded p).need_to_calculate_offsets = false) ∧
    (∀ p : TopologicalMemoryPlanner,
      calculateOffsetsIfNeeded (calculateOffsetsIfNeeded p)
        = calculateOffsetsIfNeeded p) ∧
    (∀ p : TopologicalMemoryPlanner,
      getMaximumMemorySize ((getMaximumMemorySize p).2)
        = getMaximumMemorySize p) ∧
    (∀ (p : TopologicalMemoryPlanner) (idx : Int),
      getOffsetForBuffer ((getOffsetForBuffer p idx).2.2) idx
        = getOffsetForBuffer p idx) ∧
    (∀ p : TopologicalMemoryPlanner,
      doAnyBuffersOverlap ((doAnyBuffersOverlap p).2)
        = doAnyBuffersOverlap p) := by
  refine ⟨?_, ?_, ?_, ?_, ?_, ?_, ?_, ?_, ?_⟩
  · intro p s f l inp outp h
    by_cases hfull : p.requirements.length ≥ p.max_buffer_count
    · simp [addBuffer, hfull] at h
    · simp [addBuffer, hfull]
  · intro p s f l off inp outp h
    by_cases hfull : p.requirements.length ≥ p.max_buffer_count
    · simp [addBufferPinned, addBuffer, hfull] at h
    · simp [addBufferPinned, addBuffer, hfull]
  · intro p id ty pr
    unfold addOperatorInfo
    split
    · rfl
    · rfl
  · exact calcIfNeeded_of_not_need
  · intro p hlen
    by_cases hn : p.need_to_calculate_offsets = false
    · rw [calcIfNeeded_of_not_need p hn]
      exact hn
    · unfold calculateOffsetsIfNeeded
      rw [if_neg]
      rintro (ha | hb)
      · exact ha (by revert hn; cases p.need_to_calculate_offsets <;> simp)
      · omega
  · exact calcIfNeeded_idem
  · intro p
    rw [getMaximumMemorySize_snd]
    unfold getMaximumMemorySize
    rw [calcIfNeeded_idem]
  · intro p idx
    rw [getOffsetForBuffer_snd]
    unfold getOffsetForBuffer
    rw [calcIfNeeded_idem]
  · intro p
    rw [doAnyBuffersOverlap_snd]
    unfold doAnyBuffersOverlap
    rw [calcIfNeeded_idem]

/-- C8 witness: the staleness transitions instantiated at concrete
planners. -/
theorem C8_witness :
    ((addBuffer (mkPlanner 2 1) 4 0 1 [true] [false]).1 = TfLiteStatus.ok ∧
     (addBuffer (mkPlanner 2 1) 4 0 1
       [true] [false]).2.need_to_calculate_offsets = true) ∧
    calculateOffsetsIfNeeded (calculateOffsetsIfNeeded exPlannerBasic)
      = calculateOffsetsIfNeeded exPlannerBasic ∧
    getMaximumMemorySize ((getMaximumMemorySize exPlannerBasic).2)
      = getMaximumMemorySize exPlannerBasic :=
  ⟨⟨by decide, C8_staleness.1 (mkPlanner 2 1) 4 0 1 [true] [false]
      (by decide)⟩,
   C8_staleness.2.2.2.2.2.1 exPlannerBasic,
   C8_staleness.2.2.2.2.2.2.1 exPlannerBasic⟩

/-- C8 counterexample: a successful AddOperatorInfo on a clean planner
leaves the plan clean, contradicting the claim that every successful
AddOperatorInfo marks the plan stale. -/
theorem C8_counterexample :
    (addOperatorInfo exPlannerClean 0 BuiltinOperator.MUL default).1
      = TfLiteStatus.ok ∧
    exPlannerClean.need_to_calculate_offsets = false ∧
    (addOperatorInfo exPlannerClean 0 BuiltinOperator.MUL
      default).2.need_to_calculate_offsets = false := by decide

/-- C9: when the buffer table is full, both AddBuffer forms fail and leave
the planner state exactly unchanged, so every previously added buffer
remains recorded with its prior data. -/
theorem C9_capacity (p : TopologicalMemoryPlanner)
    (size f l off : Int) (inp outp : List Bool)
    (hfull : p.requirements.length ≥ p.max_buffer_count) :
    addBuffer p size f l inp outp = (TfLiteStatus.error, p) ∧
    addBufferPinned p size f l inp outp off = (TfLiteStatus.error, p) := by
  constructor
  · simp [addBuffer, hfull]
  · simp [addBufferPinned, addBuffer, hfull]

/-- C9 witness: a zero-capacity planner rejects both AddBuffer forms with
an unchanged state. -/
theorem C9_witness :
    (mkPlanner 0 0).requirements.length ≥ (mkPlanner 0 0).max_buffer_count ∧
    addBuffer (mkPlanner 0 0) 1 0 0 [] []
      = (TfLiteStatus.error, mkPlanner 0 0) ∧
    addBufferPinned (mkPlanner 0 0) 1 0 0 [] [] 0
      = (TfLiteStatus.error, mkPlanner 0 0) :=
  ⟨by decide,
   (C9_capacity (mkPlanner 0 0) 1 0 0 0 [] [] (by decide)).1,
   (C9_capacity (mkPlanner 0 0) 1 0 0 0 [] [] (by decide)).2⟩

/-- C10: GetOffsetForBuffer fails exactly on indices outside the registered
range, writes the out parameter only on success (where it returns the
planned offset), and in all cases its returned state is the possibly
recomputed plan. -/
theorem C10_offset_query (p : TopologicalMemoryPlanner) (idx : Int) :
    ((getOffsetForBuffer p idx).1 = TfLiteStatus.error ↔
      (idx < 0 ∨ idx ≥ (getBufferCount p : Int))) ∧
    ((getOffsetForBuffer p idx).1 = TfLiteStatus.error →
      (getOffsetForBuffer p idx).2.1 = none) ∧
    ((getOffsetForBuffer p idx).1 = TfLiteStatus.ok →
      (getOffsetForBuffer p idx).2.1 =
        some ((calculateOffsetsIfNeeded p).buffer_offsets.getD idx.toNat 0)) ∧
    (getOffsetForBuffer p idx).2.2 = calculateOffsetsIfNeeded p := by
  have hcount : ((getBufferCount p : Nat) : Int)
      = (((calculateOffsetsIfNeeded p).requirements.length : Nat) : Int) := by
    rw [getBufferCount, calcIfNeeded_requirements]
  rw [hcount]
  unfold getOffsetForBuffer
  by_cases h : idx < 0 ∨
      idx ≥ (((calculateOffsetsIfNeeded p).requirements.length : Nat) : Int)
  · rw [if_pos h]
    refine ⟨iff_of_true rfl h, fun _ => rfl, fun habs => ?_, rfl⟩
    exact TfLiteStatus.noConfusion habs
  · rw [if_neg h]
    refine ⟨iff_of_false (fun habs => TfLiteStatus.noConfusion habs) h,
      fun habs => TfLiteStatus.noConfusion habs, fun _ => rfl, rfl⟩

/-- C10 witness: an out-of-range query on a two-buffer planner fails with
the out parameter untouched. -/
theorem C10_witness :
    ((getOffsetForBuffer exPlannerBasic 5).1 = TfLiteStatus.error ↔
      ((5 : Int) < 0 ∨ (5 : Int) ≥ (getBufferCount exPlannerBasic : Int))) ∧
    ((5 : Int) < 0 ∨ (5 : Int) ≥ (getBufferCount exPlannerBasic : Int)) ∧
    (getOffsetForBuffer exPlannerBasic 5).2.1 = none :=
  ⟨(C10_offset_query exPlannerBasic 5).1, by decide,
   (C10_offset_query exPlannerBasic 5).2.1
     ((C10_offset_query exPlannerBasic 5).1.mpr (by decide))⟩

end Tflm
